import Mathlib

set_option linter.unusedSectionVars false

/-!
# Verification of `FunctionMaxima` (src/function_maxima.h)

A shallow embedding of the `FunctionMaxima<A, V>` container: a partial
function `f : A → V` stored as a list of points sorted by argument
(`fun`, a `std::set<point_type, argument_order>` in the source), together
with the incrementally maintained set of local maxima (`maxima`, a
`std::set<point_type, maxima_order>`).

The embedding represents each `std::set` as its sorted element list;
iterators become indices into that list (`end()` is the length).  The
`range` member of the source (a set of weak pointers used only to
deduplicate value storage) is not observable through the public interface
and is not modelled.  User-supplied orders on `A` and `V` are modelled as
linear orders, and the source's comparison idiom `!(x < y) && !(y < x)`
is translated literally.
-/

namespace FunctionMaximaVerif

/-- `point_type` from src/function_maxima.h lines 19-53: an
(argument, value) pair.  `arg()` and `value()` are the field accessors. -/
structure point_type (α β : Type) where
  arg : α
  value : β
deriving DecidableEq, Repr

instance {α β : Type} [Inhabited α] [Inhabited β] : Inhabited (point_type α β) :=
  ⟨⟨default, default⟩⟩

theorem point_type.ext_eq {α β : Type} {p q : point_type α β}
    (h₁ : p.arg = q.arg) (h₂ : p.value = q.value) : p = q := by
  cases p; cases q; cases h₁; cases h₂; rfl

section Comparators

variable {α β : Type} [LinearOrder α] [LinearOrder β]

/-- `argument_order` (src lines 213-226): compares points by argument. -/
def argument_order (x y : point_type α β) : Bool :=
  decide (x.arg < y.arg)

/-- `maxima_order` (src lines 228-234):
`y.value() < x.value() || (!(x.value() < y.value()) && !(y.value() < x.value()) && x.arg() < y.arg())`. -/
def maxima_order (x y : point_type α β) : Bool :=
  decide (y.value < x.value) ||
    (!decide (x.value < y.value) && !decide (y.value < x.value) && decide (x.arg < y.arg))

/-- Transparent-lookup equivalence used by `fun.find(a)`
(src lines 84-88 and 220-225): the stored point compares equal to the
probe argument, i.e. `!(p.arg < a) && !(a < p.arg)`. -/
def arg_equiv (a : α) (p : point_type α β) : Bool :=
  !decide (p.arg < a) && !decide (a < p.arg)

theorem arg_equiv_iff (a : α) (p : point_type α β) :
    arg_equiv a p = true ↔ p.arg = a := by
  simp only [arg_equiv, Bool.and_eq_true, Bool.not_eq_true', decide_eq_false_iff_not]
  constructor
  · rintro ⟨h₁, h₂⟩; exact le_antisymm (not_lt.mp h₂) (not_lt.mp h₁)
  · rintro rfl; simp

theorem maxima_order_iff (x y : point_type α β) :
    maxima_order x y = true ↔
      y.value < x.value ∨ (¬ x.value < y.value ∧ ¬ y.value < x.value ∧ x.arg < y.arg) := by
  simp [maxima_order, not_lt, and_assoc]

theorem maxima_order_irrefl (x : point_type α β) : maxima_order x x = false := by
  simp [maxima_order]

theorem maxima_order_trans {x y z : point_type α β}
    (h₁ : maxima_order x y = true) (h₂ : maxima_order y z = true) :
    maxima_order x z = true := by
  rw [maxima_order_iff] at h₁ h₂ ⊢
  rcases h₁ with h₁ | ⟨h₁a, h₁b, h₁c⟩
  · rcases h₂ with h₂ | ⟨h₂a, h₂b, h₂c⟩
    · exact Or.inl (h₂.trans h₁)
    · exact Or.inl (lt_of_le_of_lt (not_lt.mp h₂a) h₁)
  · rcases h₂ with h₂ | ⟨h₂a, h₂b, h₂c⟩
    · exact Or.inl (lt_of_lt_of_le h₂ (not_lt.mp h₁a))
    · have hxy : x.value = y.value := le_antisymm (not_lt.mp h₁b) (not_lt.mp h₁a)
      have hyz : y.value = z.value := le_antisymm (not_lt.mp h₂b) (not_lt.mp h₂a)
      right
      refine ⟨?_, ?_, h₁c.trans h₂c⟩ <;> simp [hxy, hyz]

/-- Under `maxima_order`, equivalence (`!(x < y) && !(y < x)`) is equality:
the key is the (value, argument) pair, which determines the point. -/
theorem maxima_order_equiv_eq {x y : point_type α β}
    (h₁ : maxima_order x y = false) (h₂ : maxima_order y x = false) : x = y := by
  have n₁ : ¬ (y.value < x.value ∨
      (¬ x.value < y.value ∧ ¬ y.value < x.value ∧ x.arg < y.arg)) := by
    rw [← maxima_order_iff]; simp [h₁]
  have n₂ : ¬ (x.value < y.value ∨
      (¬ y.value < x.value ∧ ¬ x.value < y.value ∧ y.arg < x.arg)) := by
    rw [← maxima_order_iff]; simp [h₂]
  have hv₁ : ¬ y.value < x.value := fun h => n₁ (Or.inl h)
  have hv₂ : ¬ x.value < y.value := fun h => n₂ (Or.inl h)
  have ha₁ : ¬ x.arg < y.arg := fun h => n₁ (Or.inr ⟨hv₂, hv₁, h⟩)
  have ha₂ : ¬ y.arg < x.arg := fun h => n₂ (Or.inr ⟨hv₁, hv₂, h⟩)
  exact point_type.ext_eq (le_antisymm (not_lt.mp ha₂) (not_lt.mp ha₁))
    (le_antisymm (not_lt.mp hv₁) (not_lt.mp hv₂))

end Comparators

/-! ## `std::set` as a sorted list

A `std::set` ordered by a strict comparator `lt` is modelled as the
sorted list of its elements.  `setInsert` is `insert` (no effect when an
equivalent key is present); `setErase` removes the elements equivalent
to the given key (at most one in a set); `setContains` is `find != end`. -/

section SetOps

variable {P : Type}

/-- `std::set::insert`: walk the sorted list; place the new element
before the first strictly greater one; no-op if an equivalent element
(neither `lt x y` nor `lt y x`) is found. -/
def setInsert (lt : P → P → Bool) (x : P) : List P → List P
  | [] => [x]
  | y :: ys =>
    if lt x y then x :: y :: ys
    else if lt y x then y :: setInsert lt x ys
    else y :: ys

/-- `std::set::erase` by key: remove the elements equivalent to `x`. -/
def setErase (lt : P → P → Bool) (x : P) (l : List P) : List P :=
  l.filter (fun y => lt x y || lt y x)

/-- `std::set::find(x) != end()`: some element is equivalent to `x`. -/
def setContains (lt : P → P → Bool) (x : P) (l : List P) : Bool :=
  l.any (fun y => !lt x y && !lt y x)

theorem mem_of_mem_setInsert {lt : P → P → Bool} {x p : P} {l : List P}
    (h : p ∈ setInsert lt x l) : p ∈ l ∨ p = x := by
  induction l with
  | nil =>
    simp only [setInsert, List.mem_singleton] at h
    exact Or.inr h
  | cons y ys ih =>
    simp only [setInsert] at h
    split at h
    · rcases List.mem_cons.mp h with rfl | h
      · exact Or.inr rfl
      · exact Or.inl h
    · split at h
      · rcases List.mem_cons.mp h with rfl | h
        · exact Or.inl (List.mem_cons_self _ _)
        · rcases ih h with h' | h'
          · exact Or.inl (List.mem_cons_of_mem _ h')
          · exact Or.inr h'
      · exact Or.inl h

theorem mem_setInsert
    {lt : P → P → Bool} (hEq : ∀ u w : P, lt u w = false → lt w u = false → u = w)
    (x p : P) (l : List P) :
    p ∈ setInsert lt x l ↔ p ∈ l ∨ p = x := by
  induction l with
  | nil => simp [setInsert]
  | cons y ys ih =>
    simp only [setInsert]
    split
    · constructor
      · intro h
        rcases List.mem_cons.mp h with h | h
        · exact Or.inr h
        · exact Or.inl h
      · rintro (h | rfl)
        · exact List.mem_cons_of_mem _ h
        · exact List.mem_cons_self _ _
    · split
      · simp only [List.mem_cons, ih]
        tauto
      · rename_i h₁ h₂
        have hyx : y = x :=
          hEq y x (Bool.not_eq_true _ ▸ h₂) (Bool.not_eq_true _ ▸ h₁)
        subst hyx
        simp only [List.mem_cons]
        tauto

theorem mem_setErase
    {lt : P → P → Bool} (hEq : ∀ u w : P, lt u w = false → lt w u = false → u = w)
    (hIrr : ∀ u : P, lt u u = false)
    (x p : P) (l : List P) :
    p ∈ setErase lt x l ↔ p ∈ l ∧ p ≠ x := by
  simp only [setErase, List.mem_filter, Bool.or_eq_true]
  constructor
  · rintro ⟨hm, h | h⟩ <;> refine ⟨hm, ?_⟩ <;> rintro rfl <;> simp [hIrr] at h
  · rintro ⟨hm, hne⟩
    refine ⟨hm, ?_⟩
    by_cases hxp : lt x p = true
    · exact Or.inl hxp
    · by_cases hpx : lt p x = true
      · exact Or.inr hpx
      · have hxp' : lt x p = false := by simpa using hxp
        have hpx' : lt p x = false := by simpa using hpx
        exact absurd (hEq x p hxp' hpx').symm hne

theorem setContains_iff
    {lt : P → P → Bool} (hEq : ∀ u w : P, lt u w = false → lt w u = false → u = w)
    (hIrr : ∀ u : P, lt u u = false)
    (x : P) (l : List P) :
    setContains lt x l = true ↔ x ∈ l := by
  simp only [setContains, List.any_eq_true, Bool.and_eq_true, Bool.not_eq_true']
  constructor
  · rintro ⟨y, hy, h₁, h₂⟩
    rwa [hEq x y h₁ h₂]
  · intro h
    exact ⟨x, h, hIrr x, hIrr x⟩

theorem pairwise_setInsert (lt : P → P → Bool)
    (hTr : ∀ u v w : P, lt u v = true → lt v w = true → lt u w = true)
    (x : P) {l : List P} (h : l.Pairwise (fun u w => lt u w = true)) :
    (setInsert lt x l).Pairwise (fun u w => lt u w = true) := by
  induction l with
  | nil => simp [setInsert]
  | cons y ys ih =>
    rcases List.pairwise_cons.mp h with ⟨hy, hys⟩
    simp only [setInsert]
    split
    · rename_i hxy
      refine List.pairwise_cons.mpr ⟨?_, h⟩
      intro z hz
      rcases List.mem_cons.mp hz with rfl | hz
      · exact hxy
      · exact hTr x y z hxy (hy z hz)
    · split
      · rename_i hyx
        refine List.pairwise_cons.mpr ⟨?_, ih hys⟩
        intro z hz
        rcases mem_of_mem_setInsert hz with hz | rfl
        · exact hy z hz
        · exact hyx
      · exact h

theorem pairwise_setErase (lt : P → P → Bool) (x : P) {l : List P}
    (h : l.Pairwise (fun u w => lt u w = true)) :
    (setErase lt x l).Pairwise (fun u w => lt u w = true) :=
  h.sublist (List.filter_sublist l)

end SetOps

/-! ## List surgery helpers

Iterators into a `std::set` become indices into its sorted element list;
`end()` becomes the length.  Reading through an iterator is `getD` with a
default that is never reached at valid indices. -/

section ListSurgery

variable {P : Type} [Inhabited P]

theorem getD_eq_getElem (l : List P) (i : Nat) (h : i < l.length) :
    l.getD i default = l[i] := by
  rw [List.getD_eq_getElem?_getD, List.getElem?_eq_getElem h]; rfl

theorem getD_set_ne (l : List P) (i j : Nat) (q : P) (h : i ≠ j) :
    (l.set i q).getD j default = l.getD j default := by
  rw [List.getD_eq_getElem?_getD, List.getElem?_set_ne h, ← List.getD_eq_getElem?_getD]

theorem getD_set_self (l : List P) (i : Nat) (q : P) (h : i < l.length) :
    (l.set i q).getD i default = q := by
  rw [List.getD_eq_getElem?_getD, List.getElem?_set_self h]; rfl

/-- `fun.erase(it)` where `it` is the `i`-th element: drop that element. -/
def erasePtAt (l : List P) (i : Nat) : List P := l.take i ++ l.drop (i + 1)

theorem length_erasePtAt (l : List P) (i : Nat) (h : i < l.length) :
    (erasePtAt l i).length = l.length - 1 := by
  simp [erasePtAt]
  omega

theorem erasePtAt_length_le (l : List P) (i : Nat) (h : l.length ≤ i) :
    erasePtAt l i = l := by
  have h' : l.length ≤ i + 1 := by omega
  simp [erasePtAt, List.take_of_length_le h, List.drop_of_length_le h']

theorem getD_erasePtAt_lt (l : List P) (i j : Nat) (h : j < i) :
    (erasePtAt l i).getD j default = l.getD j default := by
  by_cases hj : j < l.length
  · rw [List.getD_eq_getElem?_getD, erasePtAt, List.getElem?_append_left
      (by simp; omega), List.getElem?_take_of_lt h, ← List.getD_eq_getElem?_getD]
  · have h₁ : l.length ≤ j := by omega
    have h₂ : (erasePtAt l i).length ≤ j := by
      simp [erasePtAt]; omega
    rw [List.getD_eq_getElem?_getD, List.getElem?_eq_none h₂,
      List.getD_eq_getElem?_getD, List.getElem?_eq_none h₁]

theorem getD_erasePtAt_ge (l : List P) (i j : Nat) (hi : i < l.length) (h : i ≤ j) :
    (erasePtAt l i).getD j default = l.getD (j + 1) default := by
  have htake : (l.take i).length = i := by simp; omega
  rw [List.getD_eq_getElem?_getD, erasePtAt, List.getElem?_append_right (by omega),
    List.getElem?_drop, List.getD_eq_getElem?_getD]
  congr 2
  omega

end ListSurgery

/-! ## The local-maximum checkers -/

section Checkers

variable {α β : Type} [LinearOrder α] [LinearOrder β] [Inhabited α] [Inhabited β]

/-- `left_checker` (src lines 169-173): true at the leftmost entry,
otherwise `!(it->value() < prev(it)->value())`. -/
def left_checker (l : List (point_type α β)) (i : Nat) : Bool :=
  if i = 0 then true
  else !decide ((l.getD i default).value < (l.getD (i - 1) default).value)

/-- `right_checker` (src lines 174-178): true when `next(it)` is `end()`,
otherwise `!(it->value() < next(it)->value())`. -/
def right_checker (l : List (point_type α β)) (i : Nat) : Bool :=
  if i + 1 = l.length then true
  else !decide ((l.getD i default).value < (l.getD (i + 1) default).value)

/-- `maximum_check` (src lines 180-182). -/
def maximum_check (l : List (point_type α β)) (i : Nat) : Bool :=
  left_checker l i && right_checker l i

/-- `left_check(it, to_erase)` (src lines 186-197); `tE = l.length`
plays `end()`. -/
def left_check (l : List (point_type α β)) (i tE : Nat) : Bool :=
  if i = 0 then true
  else if i - 1 = tE then
    if i - 1 = 0 then true
    else !decide ((l.getD i default).value < (l.getD (i - 2) default).value)
  else !decide ((l.getD i default).value < (l.getD (i - 1) default).value)

/-- `right_check(it, to_erase)` (src lines 198-207). -/
def right_check (l : List (point_type α β)) (i tE : Nat) : Bool :=
  if i + 1 = l.length then true
  else if i + 1 = tE then
    if i + 2 = l.length then true
    else !decide ((l.getD i default).value < (l.getD (i + 2) default).value)
  else !decide ((l.getD i default).value < (l.getD (i + 1) default).value)

/-- `is_maximum` (src lines 208-210). -/
def is_maximum (l : List (point_type α β)) (i tE : Nat) : Bool :=
  left_check l i tE && right_check l i tE

theorem left_checker_congr {l l' : List (point_type α β)} {i i' : Nat}
    (hzero : i' = 0 ↔ i = 0)
    (hcur : l'.getD i' default = l.getD i default)
    (hleft : i ≠ 0 → l'.getD (i' - 1) default = l.getD (i - 1) default) :
    left_checker l' i' = left_checker l i := by
  unfold left_checker
  by_cases h0 : i = 0
  · rw [if_pos h0, if_pos (hzero.mpr h0)]
  · rw [if_neg h0, if_neg (fun hh => h0 (hzero.mp hh)), hcur, hleft h0]

theorem right_checker_congr {l l' : List (point_type α β)} {i i' : Nat}
    (hlen : i' + 1 = l'.length ↔ i + 1 = l.length)
    (hcur : l'.getD i' default = l.getD i default)
    (hright : i + 1 ≠ l.length → l'.getD (i' + 1) default = l.getD (i + 1) default) :
    right_checker l' i' = right_checker l i := by
  unfold right_checker
  by_cases hl : i + 1 = l.length
  · rw [if_pos hl, if_pos (hlen.mpr hl)]
  · rw [if_neg hl, if_neg (fun hh => hl (hlen.mp hh)), hcur, hright hl]

theorem maximum_check_congr {l l' : List (point_type α β)} {i i' : Nat}
    (hzero : i' = 0 ↔ i = 0)
    (hlen : i' + 1 = l'.length ↔ i + 1 = l.length)
    (hcur : l'.getD i' default = l.getD i default)
    (hleft : i ≠ 0 → l'.getD (i' - 1) default = l.getD (i - 1) default)
    (hright : i + 1 ≠ l.length → l'.getD (i' + 1) default = l.getD (i + 1) default) :
    maximum_check l' i' = maximum_check l i := by
  unfold maximum_check
  rw [left_checker_congr hzero hcur hleft, right_checker_congr hlen hcur hright]

end Checkers

/-! ## The container -/

section Container

variable {α β : Type} [LinearOrder α] [LinearOrder β] [Inhabited α] [Inhabited β]

/-- Ordered insertion of a point with a fresh argument into the sorted
graph: models `fun.insert(point_type{a_ptr, v_ptr})` (src line 297) when
the argument is not present. -/
def fun_insert (l : List (point_type α β)) (x : point_type α β) : List (point_type α β) :=
  l.takeWhile (fun p => decide (p.arg < x.arg)) ++
    x :: l.dropWhile (fun p => decide (p.arg < x.arg))

/-- The index at which `fun_insert` places its point
(the iterator returned by `fun.insert(...).first`, src line 297). -/
def fun_insert_idx (l : List (point_type α β)) (x : point_type α β) : Nat :=
  (l.takeWhile (fun p => decide (p.arg < x.arg))).length

/-- The observable state of a `FunctionMaxima<A, V>` object: the graph
`fun` (sorted by argument) and the local-maxima set `maxima` (sorted by
`maxima_order`).  The `range` member is not observable and not modelled. -/
structure FunctionMaxima (α β : Type) where
  fun_ : List (point_type α β)
  maxima : List (point_type α β)
deriving DecidableEq, Repr

/-- `InvalidArg` (src lines 9-14). -/
inductive InvalidArg where
  | mk
deriving DecidableEq, Repr

namespace FunctionMaxima

/-- The default-constructed container (src line 129). -/
def empty : FunctionMaxima α β := ⟨[], []⟩

/-- `find(a)` (src lines 86-88): index of the point whose argument is
equivalent to `a` under transparent lookup; `s.fun_.length` is `end()`. -/
def find_idx (s : FunctionMaxima α β) (a : α) : Nat :=
  s.fun_.findIdx (arg_equiv a)

/-- `size()` (src lines 125-127). -/
def size (s : FunctionMaxima α β) : Nat := s.fun_.length

/-- `value_at` (src lines 135-141). -/
def value_at (s : FunctionMaxima α β) (a : α) : Except InvalidArg β :=
  let it := s.find_idx a
  if it = s.fun_.length then .error .mk
  else .ok (s.fun_.getD it default).value

end FunctionMaxima

/-- A guarded `maxima.insert(x)` (the staged insertions of the source,
e.g. src lines 389-402 and 467-478). -/
def insIf (b : Bool) (x : point_type α β) (m : List (point_type α β)) :
    List (point_type α β) :=
  if b then setInsert maxima_order x m else m

/-- A guarded `maxima.erase(position-of-x)` (the no-throw erasures of
the source, e.g. src lines 439-447 and 493-501). -/
def ersIf (b : Bool) (x : point_type α β) (m : List (point_type α β)) :
    List (point_type α β) :=
  if b then setErase maxima_order x m else m

/-- The maxima-set edits of `set_value` (src lines 388-447) in program
order: the staged insertions for the written point and its neighbours,
then the no-throw erasures, then the `specific_erase` removal of the old
entry when the point was and remains a maximum.  Each flag mirrors the
homonymous `bool` of the source. -/
def maxima_apply (m : List (point_type α β))
    (should_be_inserted should_be_inserted_l should_be_inserted_r : Bool)
    (should_be_erased should_be_erased_l should_be_erased_r specific_erase : Bool)
    (pt leftPt rightPt oldPt : point_type α β) : List (point_type α β) :=
  let m₁ := insIf should_be_inserted pt m
  let m₂ := insIf should_be_inserted_l leftPt m₁
  let m₃ := insIf should_be_inserted_r rightPt m₂
  let m₄ := ersIf should_be_erased oldPt m₃
  let m₅ := ersIf should_be_erased_l leftPt m₄
  let m₆ := ersIf should_be_erased_r rightPt m₅
  ersIf specific_erase oldPt m₆

/-- The maxima bookkeeping of `set_value` after the graph update
(src lines 304-451): present and future maximum status of the written
point and its neighbours decide the staged insertions and the final
erasures.  `l'` is the already-updated graph, `i` the written point's
index, `oldPt?` the replaced point when the argument was present (its
maxima entry, found at src line 269, still carries the old value). -/
def set_value_maxima (l' : List (point_type α β)) (i : Nat)
    (m : List (point_type α β)) (oldPt? : Option (point_type α β)) :
    List (point_type α β) :=
  let pt := l'.getD i default
  let left_exist := decide (i ≠ 0)
  let right_exist := decide (i + 1 < l'.length)
  let leftPt := l'.getD (i - 1) default
  let rightPt := l'.getD (i + 1) default
  let will_be_max := maximum_check l' i
  let will_be_max_l := left_exist && maximum_check l' (i - 1)
  let will_be_max_r := right_exist && maximum_check l' (i + 1)
  let was_maximum := match oldPt? with
    | some q => setContains maxima_order q m
    | none => false
  let was_maximum_l := left_exist && setContains maxima_order leftPt m
  let was_maximum_r := right_exist && setContains maxima_order rightPt m
  maxima_apply m
    will_be_max (will_be_max_l && !was_maximum_l) (will_be_max_r && !was_maximum_r)
    (!will_be_max && was_maximum) (!will_be_max_l && was_maximum_l)
    (!will_be_max_r && was_maximum_r) (will_be_max && was_maximum)
    pt leftPt rightPt (oldPt?.getD default)

/-- The maxima bookkeeping of `erase` (src lines 458-501): classify the
two neighbours with the skip-one hint `to_erase = i`, stage their
insertions (src lines 465-484), then remove the target's own entry if
present (src lines 493-494) and the neighbour entries flagged invalid
(src lines 498-501). -/
def erase_maxima (l m : List (point_type α β)) (i : Nat) :
    List (point_type α β) :=
  let tgt := l.getD i default
  let leftPt := l.getD (i - 1) default
  let rightPt := l.getD (i + 1) default
  let left_is_max := is_maximum l (i - 1) i
  let right_is_max := is_maximum l (i + 1) i
  let m₁ := insIf (decide (i ≠ 0) && left_is_max) leftPt m
  let should_erase_left_mx :=
    decide (i ≠ 0) && !left_is_max && setContains maxima_order leftPt m
  let m₂ := insIf (decide (i + 1 < l.length) && right_is_max) rightPt m₁
  let should_erase_right_mx :=
    decide (i + 1 < l.length) && !right_is_max &&
      setContains maxima_order rightPt m
  let m₃ := ersIf (setContains maxima_order tgt m) tgt m₂
  let m₄ := ersIf should_erase_left_mx leftPt m₃
  ersIf should_erase_right_mx rightPt m₄

namespace FunctionMaxima

/-- `set_value` (src lines 263-452): successful-execution semantics.
Early return when the argument is present with an equivalent value
(src lines 271-272); otherwise rewrite the point's value slot in place
(src line 295) or insert a fresh point (src line 297), then update the
maxima set. -/
def set_value (s : FunctionMaxima α β) (a : α) (v : β) : FunctionMaxima α β :=
  let it := s.find_idx a
  let found := decide (it < s.fun_.length)
  let oldPt := s.fun_.getD it default
  if found && !decide (oldPt.value < v) && !decide (v < oldPt.value) then s
  else if found then
    let l' := s.fun_.set it ⟨oldPt.arg, v⟩
    ⟨l', set_value_maxima l' it s.maxima (some oldPt)⟩
  else
    let x : point_type α β := ⟨a, v⟩
    let l' := fun_insert s.fun_ x
    ⟨l', set_value_maxima l' (fun_insert_idx s.fun_ x) s.maxima none⟩

/-- `erase` (src lines 454-503): successful-execution semantics.  When
the argument is present: classify the neighbours with the skip-one hint,
stage their insertions, then remove the target's own maxima entry (found
at src line 461), the target point, and the invalidated neighbour
entries. -/
def erase (s : FunctionMaxima α β) (a : α) : FunctionMaxima α β :=
  let to_erase := s.find_idx a
  if to_erase < s.fun_.length then
    ⟨erasePtAt s.fun_ to_erase, erase_maxima s.fun_ s.maxima to_erase⟩
  else s

/-- One mutating call. -/
inductive Op (α β : Type) where
  | set (a : α) (v : β)
  | ers (a : α)

/-- Apply one mutating call. -/
def step (s : FunctionMaxima α β) : Op α β → FunctionMaxima α β
  | .set a v => s.set_value a v
  | .ers a => s.erase a

/-- The container obtained by a sequence of mutating calls on an
initially empty container. -/
def run (ops : List (Op α β)) : FunctionMaxima α β :=
  ops.foldl step empty

end FunctionMaxima

end Container

section SanityChecks

/-- Scenario: set (1,3),(2,1),(3,3),(4,1),(5,3); the maxima iterate as
(1,3),(3,3),(5,3). -/
example :
    (FunctionMaxima.run [.set 1 3, .set 2 1, .set 3 3, .set 4 1, .set 5 3] :
      FunctionMaxima ℕ ℕ).maxima =
      [⟨1, 3⟩, ⟨3, 3⟩, ⟨5, 3⟩] := by decide

/-- Erasing 3 afterwards leaves maxima "(1,3),(5,3)". -/
example :
    (FunctionMaxima.erase
      (FunctionMaxima.run [.set 1 3, .set 2 1, .set 3 3, .set 4 1, .set 5 3] :
        FunctionMaxima ℕ ℕ) 3).maxima =
      [⟨1, 3⟩, ⟨5, 3⟩] := by decide

/-- Plateau: all of (1,5),(2,5),(3,5) are maxima, in argument order. -/
example :
    (FunctionMaxima.run [.set 1 5, .set 2 5, .set 3 5] :
      FunctionMaxima ℕ ℕ).maxima = [⟨1, 5⟩, ⟨2, 5⟩, ⟨3, 5⟩] := by decide

/-- Monotone up: only the last point is a maximum. -/
example :
    (FunctionMaxima.run [.set 1 1, .set 2 2, .set 3 3] :
      FunctionMaxima ℕ ℕ) = ⟨[⟨1, 1⟩, ⟨2, 2⟩, ⟨3, 3⟩], [⟨3, 3⟩]⟩ := by decide

end SanityChecks

/-! ## The container invariants

`fun` is sorted strictly by argument (I1), `maxima` is sorted by
`maxima_order` (I4), and `maxima` holds exactly the local maxima of the
graph (I3). -/

section Invariant

variable {α β : Type} [LinearOrder α] [LinearOrder β] [Inhabited α] [Inhabited β]

/-- The graph list is strictly sorted by argument. -/
def SortedArg (l : List (point_type α β)) : Prop :=
  l.Pairwise (fun p q => p.arg < q.arg)

/-- The maxima list is sorted by `maxima_order`. -/
def SortedMx (m : List (point_type α β)) : Prop :=
  m.Pairwise (fun p q => maxima_order p q = true)

/-- I3: the maxima set holds exactly the graph points that pass
`maximum_check`. -/
def MaximaInv (s : FunctionMaxima α β) : Prop :=
  ∀ p : point_type α β, p ∈ s.maxima ↔
    ∃ i : Nat, i < s.fun_.length ∧ s.fun_.getD i default = p ∧
      maximum_check s.fun_ i = true

/-- All representation invariants together. -/
def Inv (s : FunctionMaxima α β) : Prop :=
  SortedArg s.fun_ ∧ SortedMx s.maxima ∧ MaximaInv s

theorem mem_mxInsert (x p : point_type α β) (m : List (point_type α β)) :
    p ∈ setInsert maxima_order x m ↔ p ∈ m ∨ p = x :=
  mem_setInsert (fun _ _ h₁ h₂ => maxima_order_equiv_eq h₁ h₂) x p m

theorem mem_mxErase (x p : point_type α β) (m : List (point_type α β)) :
    p ∈ setErase maxima_order x m ↔ p ∈ m ∧ p ≠ x :=
  mem_setErase (fun _ _ h₁ h₂ => maxima_order_equiv_eq h₁ h₂)
    maxima_order_irrefl x p m

theorem mxContains_iff (x : point_type α β) (m : List (point_type α β)) :
    setContains maxima_order x m = true ↔ x ∈ m :=
  setContains_iff (fun _ _ h₁ h₂ => maxima_order_equiv_eq h₁ h₂)
    maxima_order_irrefl x m

theorem mem_insIf {p : point_type α β} (b : Bool) (x : point_type α β)
    (m : List (point_type α β)) :
    p ∈ insIf b x m ↔ p ∈ m ∨ (b = true ∧ p = x) := by
  unfold insIf; cases b <;> simp [mem_mxInsert]

theorem mem_ersIf {p : point_type α β} (b : Bool) (x : point_type α β)
    (m : List (point_type α β)) :
    p ∈ ersIf b x m ↔ p ∈ m ∧ ¬(b = true ∧ p = x) := by
  unfold ersIf; cases b <;> simp [mem_mxErase]

theorem sortedMx_insIf {b : Bool} {x : point_type α β}
    {m : List (point_type α β)} (h : SortedMx m) : SortedMx (insIf b x m) := by
  unfold SortedMx at h ⊢
  unfold insIf
  cases b
  · exact h
  · exact pairwise_setInsert maxima_order (fun u v w h1 h2 => maxima_order_trans h1 h2) x h

theorem sortedMx_ersIf {b : Bool} {x : point_type α β}
    {m : List (point_type α β)} (h : SortedMx m) : SortedMx (ersIf b x m) := by
  unfold SortedMx at h ⊢
  unfold ersIf
  cases b
  · exact h
  · exact pairwise_setErase maxima_order x h

/-- Membership after the staged maxima edits of `set_value`. -/
theorem mem_maxima_apply {m : List (point_type α β)}
    {ins insl insr er erl err spec : Bool}
    {pt lpt rpt opt p : point_type α β} :
    p ∈ maxima_apply m ins insl insr er erl err spec pt lpt rpt opt ↔
      ((p ∈ m ∨ (ins = true ∧ p = pt) ∨ (insl = true ∧ p = lpt) ∨
          (insr = true ∧ p = rpt)) ∧
        ¬(er = true ∧ p = opt) ∧ ¬(erl = true ∧ p = lpt) ∧
        ¬(err = true ∧ p = rpt) ∧ ¬(spec = true ∧ p = opt)) := by
  unfold maxima_apply
  simp only [mem_insIf, mem_ersIf, and_assoc, or_assoc]

/-- The staged maxima edits keep the maxima list sorted. -/
theorem sortedMx_maxima_apply {m : List (point_type α β)}
    {ins insl insr er erl err spec : Bool}
    {pt lpt rpt opt : point_type α β} (h : SortedMx m) :
    SortedMx (maxima_apply m ins insl insr er erl err spec pt lpt rpt opt) := by
  simp only [maxima_apply]
  exact sortedMx_ersIf (sortedMx_ersIf (sortedMx_ersIf (sortedMx_ersIf
    (sortedMx_insIf (sortedMx_insIf (sortedMx_insIf h))))))

/-- In a strictly argument-sorted list, the argument determines the
index. -/
theorem sortedArg_arg_inj {l : List (point_type α β)} (h : SortedArg l)
    {i j : Nat} (hi : i < l.length) (hj : j < l.length)
    (hEq : (l.getD i default).arg = (l.getD j default).arg) : i = j := by
  rcases lt_trichotomy i j with hij | hij | hij
  · have := (List.pairwise_iff_getElem.mp h) i j hi hj hij
    rw [getD_eq_getElem _ _ hi, getD_eq_getElem _ _ hj] at hEq
    exact absurd (hEq ▸ this) (lt_irrefl _)
  · exact hij
  · have := (List.pairwise_iff_getElem.mp h) j i hj hi hij
    rw [getD_eq_getElem _ _ hi, getD_eq_getElem _ _ hj] at hEq
    exact absurd (hEq ▸ this) (lt_irrefl _)

theorem mem_iff_getD {l : List (point_type α β)} {p : point_type α β} :
    p ∈ l ↔ ∃ i : Nat, i < l.length ∧ l.getD i default = p := by
  rw [List.mem_iff_getElem]
  constructor
  · rintro ⟨i, hi, rfl⟩
    exact ⟨i, hi, getD_eq_getElem _ _ hi⟩
  · rintro ⟨i, hi, rfl⟩
    exact ⟨i, hi, (getD_eq_getElem _ _ hi).symm⟩

/-- `find_idx` finds a point with the probed argument. -/
theorem find_idx_arg {s : FunctionMaxima α β} {a : α}
    (h : s.find_idx a < s.fun_.length) :
    (s.fun_.getD (s.find_idx a) default).arg = a := by
  have := @List.findIdx_getElem _ _ _ h
  rw [arg_equiv_iff] at this
  rwa [getD_eq_getElem _ _ h]

theorem arg_equiv_false_iff (a : α) (p : point_type α β) :
    arg_equiv a p = false ↔ p.arg ≠ a := by
  rw [ne_eq, ← arg_equiv_iff a p, Bool.eq_false_iff, ne_eq]

/-- `find_idx` misses exactly when no point carries the argument. -/
theorem find_idx_eq_length_iff {s : FunctionMaxima α β} {a : α} :
    s.find_idx a = s.fun_.length ↔ ∀ p ∈ s.fun_, p.arg ≠ a := by
  unfold FunctionMaxima.find_idx
  rw [List.findIdx_eq_length]
  constructor
  · intro h p hp
    exact (arg_equiv_false_iff a p).mp (h p hp)
  · intro h p hp
    exact (arg_equiv_false_iff a p).mpr (h p hp)

end Invariant

/-! ## Index bookkeeping for the three graph surgeries

`set_value` either rewrites one value slot in place (`List.set`) or
inserts a fresh point (`fun_insert`); `erase` removes one point
(`erasePtAt`).  The lemmas below say how `maximum_check` transports
across each surgery away from the touched position, and how the
skip-one-hint predicate `is_maximum` on the old graph agrees with
`maximum_check` on the erased graph at the two neighbours. -/

section Reindexing

variable {α β : Type} [LinearOrder α] [LinearOrder β] [Inhabited α] [Inhabited β]

theorem fun_insert_idx_le (l : List (point_type α β)) (x : point_type α β) :
    fun_insert_idx l x ≤ l.length :=
  (List.takeWhile_sublist _).length_le

theorem length_fun_insert (l : List (point_type α β)) (x : point_type α β) :
    (fun_insert l x).length = l.length + 1 := by
  have h := congrArg List.length
    (List.takeWhile_append_dropWhile (fun p => decide (p.arg < x.arg)) l)
  simp only [List.length_append] at h
  simp only [fun_insert, List.length_append, List.length_cons]
  omega

theorem getD_fun_insert_lt {l : List (point_type α β)} {x : point_type α β} {j : Nat}
    (h : j < fun_insert_idx l x) :
    (fun_insert l x).getD j default = l.getD j default := by
  unfold fun_insert_idx at h
  conv_rhs =>
    rw [← List.takeWhile_append_dropWhile (fun p => decide (p.arg < x.arg)) l]
  rw [fun_insert, List.getD_eq_getElem?_getD, List.getD_eq_getElem?_getD,
    List.getElem?_append, List.getElem?_append, if_pos h, if_pos h]

theorem getD_fun_insert_self (l : List (point_type α β)) (x : point_type α β) :
    (fun_insert l x).getD (fun_insert_idx l x) default = x := by
  unfold fun_insert fun_insert_idx
  rw [List.getD_eq_getElem?_getD, List.getElem?_append,
    if_neg (lt_irrefl _), Nat.sub_self]
  simp

theorem getD_fun_insert_gt {l : List (point_type α β)} {x : point_type α β} {j : Nat}
    (h : fun_insert_idx l x < j) :
    (fun_insert l x).getD j default = l.getD (j - 1) default := by
  unfold fun_insert_idx at h
  have hk : ¬ j < (l.takeWhile (fun p => decide (p.arg < x.arg))).length := by omega
  have hk' : ¬ j - 1 < (l.takeWhile (fun p => decide (p.arg < x.arg))).length := by
    omega
  conv_rhs =>
    rw [← List.takeWhile_append_dropWhile (fun p => decide (p.arg < x.arg)) l]
  rw [fun_insert, List.getD_eq_getElem?_getD, List.getD_eq_getElem?_getD,
    List.getElem?_append, List.getElem?_append, if_neg hk, if_neg hk']
  have hsub : j - (l.takeWhile (fun p => decide (p.arg < x.arg))).length =
      (j - 1 - (l.takeWhile (fun p => decide (p.arg < x.arg))).length) + 1 := by
    omega
  rw [hsub, List.getElem?_cons_succ]

/-- In a sorted graph where the inserted argument is absent, everything
the insertion point skips over is strictly smaller and everything after
it is strictly larger. -/
theorem dropWhile_arg_gt {l : List (point_type α β)} (hs : SortedArg l)
    {x : point_type α β} (habs : ∀ p ∈ l, p.arg ≠ x.arg) :
    ∀ q ∈ l.dropWhile (fun p => decide (p.arg < x.arg)), x.arg < q.arg := by
  induction l with
  | nil => intro q hq; simp at hq
  | cons y ys ih =>
    intro q hq
    rw [List.dropWhile_cons] at hq
    split at hq
    · exact ih (List.pairwise_cons.mp hs).2
        (fun p hp => habs p (List.mem_cons_of_mem _ hp)) q hq
    · rename_i hy
      simp only [decide_eq_true_eq] at hy
      have hyx : x.arg < y.arg :=
        lt_of_le_of_ne (not_lt.mp hy)
          (fun hc => habs y (List.mem_cons_self _ _) hc.symm)
      rcases List.mem_cons.mp hq with rfl | hq
      · exact hyx
      · exact hyx.trans ((List.pairwise_cons.mp hs).1 q hq)

theorem sortedArg_fun_insert {l : List (point_type α β)} (hs : SortedArg l)
    {x : point_type α β} (habs : ∀ p ∈ l, p.arg ≠ x.arg) :
    SortedArg (fun_insert l x) := by
  unfold SortedArg fun_insert
  rw [List.pairwise_append]
  refine ⟨hs.sublist (List.takeWhile_sublist _), ?_, ?_⟩
  · rw [List.pairwise_cons]
    exact ⟨dropWhile_arg_gt hs habs, hs.sublist (List.dropWhile_sublist _)⟩
  · intro p hp q hq
    have hpx : p.arg < x.arg := by
      simpa using List.mem_takeWhile_imp hp
    rcases List.mem_cons.mp hq with rfl | hq
    · exact hpx
    · exact hpx.trans (dropWhile_arg_gt hs habs q hq)

theorem sortedArg_set {l : List (point_type α β)} (hs : SortedArg l) {i : Nat}
    {q : point_type α β} (hi : i < l.length)
    (harg : q.arg = (l.getD i default).arg) : SortedArg (l.set i q) := by
  rw [getD_eq_getElem _ _ hi] at harg
  rw [SortedArg, List.pairwise_iff_getElem] at hs ⊢
  intro j k hj hk hjk
  have hj' : j < l.length := by simpa using hj
  have hk' : k < l.length := by simpa using hk
  have hsa := hs j k hj' hk' hjk
  rw [List.getElem_set, List.getElem_set]
  split <;> split <;> rename_i h1 h2
  · omega
  · subst h1
    rw [harg]
    exact hsa
  · subst h2
    rw [harg]
    exact hsa
  · exact hsa

/-- Rewriting the point at `i` leaves `maximum_check` unchanged at any
index that is neither `i` nor one of its two neighbours. -/
theorem maximum_check_set_far {l : List (point_type α β)} {i j : Nat}
    {q : point_type α β} (h₁ : j ≠ i) (h₂ : j + 1 ≠ i) (h₃ : j ≠ i + 1) :
    maximum_check (l.set i q) j = maximum_check l j := by
  apply maximum_check_congr
  · exact Iff.rfl
  · rw [List.length_set]
  · exact getD_set_ne _ _ _ _ (fun hc => h₁ hc.symm)
  · intro hj0
    exact getD_set_ne _ _ _ _ (fun hc => h₃ (by omega))
  · intro _
    exact getD_set_ne _ _ _ _ (fun hc => h₂ hc.symm)

/-- Inserting at `k` leaves `maximum_check` unchanged strictly left of
`k - 1`. -/
theorem maximum_check_insert_far_left {l : List (point_type α β)}
    {x : point_type α β} {j : Nat} (hj : j + 1 < fun_insert_idx l x) :
    maximum_check (fun_insert l x) j = maximum_check l j := by
  have hk := fun_insert_idx_le l x
  apply maximum_check_congr
  · exact Iff.rfl
  · rw [length_fun_insert]
    constructor <;> intro <;> omega
  · exact getD_fun_insert_lt (by omega)
  · intro _
    exact getD_fun_insert_lt (by omega)
  · intro _
    exact getD_fun_insert_lt (by omega)

/-- Inserting at `k` shifts `maximum_check` by one strictly right of
`k + 1`. -/
theorem maximum_check_insert_far_right {l : List (point_type α β)}
    {x : point_type α β} {j : Nat} (hj : fun_insert_idx l x + 2 ≤ j) :
    maximum_check (fun_insert l x) j = maximum_check l (j - 1) := by
  apply maximum_check_congr
  · constructor <;> intro <;> omega
  · rw [length_fun_insert]
    constructor <;> intro <;> omega
  · exact getD_fun_insert_gt (by omega)
  · intro _
    have h : j - 1 - 1 = j - 2 := by omega
    rw [getD_fun_insert_gt (by omega), h]
  · intro _
    have h : j + 1 - 1 = (j - 1) + 1 := by omega
    rw [getD_fun_insert_gt (by omega), h]

/-- Erasing the point at `i` leaves `maximum_check` unchanged strictly
left of `i - 1`. -/
theorem maximum_check_erase_far_left {l : List (point_type α β)} {i j : Nat}
    (hi : i < l.length) (hij : j + 2 ≤ i) :
    maximum_check (erasePtAt l i) j = maximum_check l j := by
  apply maximum_check_congr
  · exact Iff.rfl
  · rw [length_erasePtAt _ _ hi]
    constructor <;> intro <;> omega
  · exact getD_erasePtAt_lt _ _ _ (by omega)
  · intro _
    exact getD_erasePtAt_lt _ _ _ (by omega)
  · intro _
    exact getD_erasePtAt_lt _ _ _ (by omega)

/-- Erasing the point at `i` shifts `maximum_check` by one at indices
at least `i + 1` of the old graph. -/
theorem maximum_check_erase_far_right {l : List (point_type α β)} {i j : Nat}
    (hi : i < l.length) (hij : i + 1 ≤ j) :
    maximum_check (erasePtAt l i) j = maximum_check l (j + 1) := by
  apply maximum_check_congr
  · constructor <;> intro <;> omega
  · rw [length_erasePtAt _ _ hi]
    constructor <;> intro <;> omega
  · exact getD_erasePtAt_ge _ _ _ hi (by omega)
  · intro _
    have h : j - 1 + 1 = j + 1 - 1 := by omega
    rw [getD_erasePtAt_ge _ _ _ hi (by omega), h]
  · intro _
    exact getD_erasePtAt_ge _ _ _ hi (by omega)

/-- At the left neighbour, the skip-one hint agrees with
`maximum_check` on the graph with the target removed. -/
theorem is_maximum_erase_left {l : List (point_type α β)} {i : Nat}
    (h0 : 1 ≤ i) (hi : i < l.length) :
    is_maximum l (i - 1) i = maximum_check (erasePtAt l i) (i - 1) := by
  unfold is_maximum maximum_check
  have hL : left_check l (i - 1) i = left_checker (erasePtAt l i) (i - 1) := by
    unfold left_check left_checker
    by_cases h1 : i - 1 = 0
    · rw [if_pos h1, if_pos h1]
    · rw [if_neg h1, if_neg h1, if_neg (show ¬ (i - 1 - 1 = i) by omega),
        getD_erasePtAt_lt _ _ _ (by omega), getD_erasePtAt_lt _ _ _ (by omega)]
  have hR : right_check l (i - 1) i = right_checker (erasePtAt l i) (i - 1) := by
    unfold right_check right_checker
    rw [if_neg (show ¬ (i - 1 + 1 = l.length) by omega),
      if_pos (show i - 1 + 1 = i by omega), length_erasePtAt _ _ hi]
    by_cases hb : i + 1 = l.length
    · rw [if_pos (show i - 1 + 2 = l.length by omega),
        if_pos (show i - 1 + 1 = l.length - 1 by omega)]
    · rw [if_neg (show ¬ (i - 1 + 2 = l.length) by omega),
        if_neg (show ¬ (i - 1 + 1 = l.length - 1) by omega),
        getD_erasePtAt_lt _ _ _ (by omega),
        getD_erasePtAt_ge _ _ _ hi (by omega),
        show i - 1 + 1 + 1 = i - 1 + 2 from by omega]
  rw [hL, hR]

/-- At the right neighbour, the skip-one hint agrees with
`maximum_check` on the graph with the target removed. -/
theorem is_maximum_erase_right {l : List (point_type α β)} {i : Nat}
    (hi : i + 1 < l.length) :
    is_maximum l (i + 1) i = maximum_check (erasePtAt l i) i := by
  have hi' : i < l.length := by omega
  unfold is_maximum maximum_check
  have hL : left_check l (i + 1) i = left_checker (erasePtAt l i) i := by
    unfold left_check left_checker
    rw [if_neg (show ¬ (i + 1 = 0) by omega),
      if_pos (show i + 1 - 1 = i from rfl)]
    by_cases h1 : i = 0
    · rw [if_pos (show i + 1 - 1 = 0 by omega), if_pos h1]
    · rw [if_neg (show ¬ (i + 1 - 1 = 0) by omega), if_neg h1,
        getD_erasePtAt_ge _ _ _ hi' (le_refl i),
        getD_erasePtAt_lt _ _ _ (by omega),
        show i + 1 - 2 = i - 1 from by omega]
  have hR : right_check l (i + 1) i = right_checker (erasePtAt l i) i := by
    unfold right_check right_checker
    rw [length_erasePtAt _ _ hi']
    by_cases hb : i + 1 + 1 = l.length
    · rw [if_pos hb, if_pos (show i + 1 = l.length - 1 by omega)]
    · rw [if_neg hb, if_neg (show ¬ (i + 1 + 1 = i) by omega),
        if_neg (show ¬ (i + 1 = l.length - 1) by omega),
        getD_erasePtAt_ge _ _ _ hi' (le_refl i),
        getD_erasePtAt_ge _ _ _ hi' (by omega),
        show i + 1 + 1 = i + 2 from rfl]
  rw [hL, hR]

theorem mxContains_eq_false (x : point_type α β) (m : List (point_type α β)) :
    setContains maxima_order x m = false ↔ x ∉ m := by
  rw [Bool.eq_false_iff, ne_eq, mxContains_iff]

/-- Membership in the maxima set after `set_value` rewrote the value of
an existing point (`oldPt? = some q`). -/
theorem mem_set_value_maxima_some {l' m : List (point_type α β)} {i : Nat}
    {q p : point_type α β} :
    p ∈ set_value_maxima l' i m (some q) ↔
      ((p ∈ m ∨
          (maximum_check l' i = true ∧ p = l'.getD i default) ∨
          (i ≠ 0 ∧ maximum_check l' (i - 1) = true ∧
            (¬ i ≠ 0 ∨ l'.getD (i - 1) default ∉ m) ∧ p = l'.getD (i - 1) default) ∨
          (i + 1 < l'.length ∧ maximum_check l' (i + 1) = true ∧
            (¬ i + 1 < l'.length ∨ l'.getD (i + 1) default ∉ m) ∧
            p = l'.getD (i + 1) default)) ∧
        ¬(maximum_check l' i = false ∧ q ∈ m ∧ p = q) ∧
        ¬((¬ i ≠ 0 ∨ maximum_check l' (i - 1) = false) ∧
            i ≠ 0 ∧ l'.getD (i - 1) default ∈ m ∧ p = l'.getD (i - 1) default) ∧
        ¬((¬ i + 1 < l'.length ∨ maximum_check l' (i + 1) = false) ∧
            i + 1 < l'.length ∧ l'.getD (i + 1) default ∈ m ∧
            p = l'.getD (i + 1) default) ∧
        ¬(maximum_check l' i = true ∧ q ∈ m ∧ p = q)) := by
  simp only [set_value_maxima, mem_maxima_apply, Bool.and_eq_true, Bool.not_eq_true',
    Bool.and_eq_false_iff, decide_eq_true_eq, decide_eq_false_iff_not, mxContains_iff,
    mxContains_eq_false, Option.getD_some, and_assoc, or_assoc, ne_eq]

/-- Membership in the maxima set after `set_value` inserted a fresh
point (`oldPt? = none`, so no old entry can be present). -/
theorem mem_set_value_maxima_none {l' m : List (point_type α β)} {i : Nat}
    {p : point_type α β} :
    p ∈ set_value_maxima l' i m none ↔
      ((p ∈ m ∨
          (maximum_check l' i = true ∧ p = l'.getD i default) ∨
          (i ≠ 0 ∧ maximum_check l' (i - 1) = true ∧
            (¬ i ≠ 0 ∨ l'.getD (i - 1) default ∉ m) ∧ p = l'.getD (i - 1) default) ∨
          (i + 1 < l'.length ∧ maximum_check l' (i + 1) = true ∧
            (¬ i + 1 < l'.length ∨ l'.getD (i + 1) default ∉ m) ∧
            p = l'.getD (i + 1) default)) ∧
        ¬((¬ i ≠ 0 ∨ maximum_check l' (i - 1) = false) ∧
            i ≠ 0 ∧ l'.getD (i - 1) default ∈ m ∧ p = l'.getD (i - 1) default) ∧
        ¬((¬ i + 1 < l'.length ∨ maximum_check l' (i + 1) = false) ∧
            i + 1 < l'.length ∧ l'.getD (i + 1) default ∈ m ∧
            p = l'.getD (i + 1) default)) := by
  simp only [set_value_maxima, mem_maxima_apply, Bool.and_eq_true, Bool.not_eq_true',
    Bool.and_eq_false_iff, decide_eq_true_eq, decide_eq_false_iff_not, mxContains_iff,
    mxContains_eq_false, Bool.and_false, Bool.false_eq_true, false_and, and_false,
    not_false_iff, and_true, true_and, and_assoc, or_assoc, ne_eq]

/-- Membership in the maxima set after the edits staged by `erase`. -/
theorem mem_erase_maxima {l m : List (point_type α β)} {i : Nat}
    {p : point_type α β} :
    p ∈ erase_maxima l m i ↔
      ((p ∈ m ∨
          (i ≠ 0 ∧ is_maximum l (i - 1) i = true ∧ p = l.getD (i - 1) default) ∨
          (i + 1 < l.length ∧ is_maximum l (i + 1) i = true ∧
            p = l.getD (i + 1) default)) ∧
        ¬(l.getD i default ∈ m ∧ p = l.getD i default) ∧
        ¬(i ≠ 0 ∧ is_maximum l (i - 1) i = false ∧
            l.getD (i - 1) default ∈ m ∧ p = l.getD (i - 1) default) ∧
        ¬(i + 1 < l.length ∧ is_maximum l (i + 1) i = false ∧
            l.getD (i + 1) default ∈ m ∧ p = l.getD (i + 1) default)) := by
  simp only [erase_maxima, mem_insIf, mem_ersIf, Bool.and_eq_true, Bool.not_eq_true',
    Bool.and_eq_false_iff, decide_eq_true_eq, decide_eq_false_iff_not, mxContains_iff,
    mxContains_eq_false, and_assoc, or_assoc, ne_eq]

/-- The maxima edits staged by `erase` keep the maxima list sorted. -/
theorem sortedMx_erase_maxima {l m : List (point_type α β)} {i : Nat}
    (h : SortedMx m) : SortedMx (erase_maxima l m i) := by
  simp only [erase_maxima]
  exact sortedMx_ersIf (sortedMx_ersIf (sortedMx_ersIf (sortedMx_insIf
    (sortedMx_insIf h))))

/-- The maxima edits of `set_value` keep the maxima list sorted. -/
theorem sortedMx_set_value_maxima {l' m : List (point_type α β)} {i : Nat}
    {oldPt? : Option (point_type α β)} (h : SortedMx m) :
    SortedMx (set_value_maxima l' i m oldPt?) := by
  simp only [set_value_maxima]
  exact sortedMx_maxima_apply h

/-- With the hint at `end()`, the hinted predicate coincides with the
hint-less one. -/
theorem maximum_check_eq_is_maximum_end {l : List (point_type α β)} {i : Nat}
    (hi : i < l.length) :
    maximum_check l i = is_maximum l i l.length := by
  unfold is_maximum maximum_check
  have hL : left_check l i l.length = left_checker l i := by
    unfold left_check left_checker
    by_cases h1 : i = 0
    · rw [if_pos h1, if_pos h1]
    · rw [if_neg h1, if_neg h1, if_neg (show ¬ (i - 1 = l.length) by omega)]
  have hR : right_check l i l.length = right_checker l i := by
    unfold right_check right_checker
    by_cases hb : i + 1 = l.length
    · rw [if_pos hb, if_pos hb]
    · rw [if_neg hb, if_neg hb, if_neg hb]
  rw [hL, hR]

theorem erasePtAt_sublist {P : Type} (l : List P) (i : Nat) :
    (erasePtAt l i).Sublist l := by
  conv_rhs => rw [← List.take_append_drop i l]
  apply List.Sublist.append (List.Sublist.refl _)
  rw [← List.drop_drop 1 i]
  exact List.drop_sublist _ _

/-- **Correctness of `erase`'s incremental maxima repair**: starting
from a sorted graph whose maxima set satisfies I3, the staged edits of
`erase` produce exactly the local maxima of the graph without the
target point. -/
theorem erase_maxima_inv {l m : List (point_type α β)} {i : Nat}
    (hi : i < l.length) (hs : SortedArg l)
    (hinv : ∀ p' : point_type α β, p' ∈ m ↔
      ∃ j, j < l.length ∧ l.getD j default = p' ∧ maximum_check l j = true)
    (p : point_type α β) :
    p ∈ erase_maxima l m i ↔
      ∃ j, j < (erasePtAt l i).length ∧ (erasePtAt l i).getD j default = p ∧
        maximum_check (erasePtAt l i) j = true := by
  have hne_arg : ∀ {j k : Nat}, j < l.length → k < l.length → j ≠ k →
      l.getD j default ≠ l.getD k default := by
    intro j k hj hk hjk hc
    exact hjk (sortedArg_arg_inj hs hj hk (congrArg point_type.arg hc))
  have hlen : (erasePtAt l i).length = l.length - 1 := length_erasePtAt _ _ hi
  rw [mem_erase_maxima]
  constructor
  · rintro ⟨hmem, hnt, hnl, hnr⟩
    rcases hmem with hpm | ⟨hi0, hlim, rfl⟩ | ⟨hir, hrim, rfl⟩
    · obtain ⟨j, hj, hjp, hchk⟩ := (hinv p).mp hpm
      subst hjp
      by_cases hji : j = i
      · exact absurd ⟨hji ▸ hpm, by rw [hji]⟩ hnt
      · by_cases hjl : i ≠ 0 ∧ j = i - 1
        · obtain ⟨hi0, rfl⟩ := hjl
          have hlim : is_maximum l (i - 1) i = true := by
            cases hx : is_maximum l (i - 1) i
            · exact absurd ⟨hi0, hx, hpm, rfl⟩ hnl
            · rfl
          refine ⟨i - 1, by omega, ?_, ?_⟩
          · rw [getD_erasePtAt_lt _ _ _ (by omega)]
          · rw [← is_maximum_erase_left (by omega) hi]
            exact hlim
        · by_cases hjr : i + 1 < l.length ∧ j = i + 1
          · obtain ⟨hir, rfl⟩ := hjr
            have hrim : is_maximum l (i + 1) i = true := by
              cases hx : is_maximum l (i + 1) i
              · exact absurd ⟨hir, hx, hpm, rfl⟩ hnr
              · rfl
            refine ⟨i, by omega, ?_, ?_⟩
            · rw [getD_erasePtAt_ge _ _ _ hi (le_refl i)]
            · rw [← is_maximum_erase_right hir]
              exact hrim
          · have hfar : j + 2 ≤ i ∨ i + 2 ≤ j := by
              rcases Nat.lt_or_ge j i with hlt | hge
              · left
                rcases Nat.eq_or_lt_of_le (Nat.succ_le_of_lt hlt) with heq | hlt'
                · exact absurd ⟨by omega, by omega⟩ hjl
                · omega
              · right
                rcases Nat.eq_or_lt_of_le hge with heq | hgt
                · omega
                · rcases Nat.eq_or_lt_of_le (Nat.succ_le_of_lt hgt) with heq' | hgt'
                  · exact absurd ⟨by omega, by omega⟩ hjr
                  · omega
            rcases hfar with hfl | hfr
            · refine ⟨j, by omega, ?_, ?_⟩
              · rw [getD_erasePtAt_lt _ _ _ (by omega)]
              · rw [maximum_check_erase_far_left hi (by omega)]
                exact hchk
            · refine ⟨j - 1, by omega, ?_, ?_⟩
              · rw [getD_erasePtAt_ge _ _ _ hi (by omega),
                  show j - 1 + 1 = j from by omega]
              · rw [maximum_check_erase_far_right hi (by omega),
                  show j - 1 + 1 = j from by omega]
                exact hchk
    · refine ⟨i - 1, by omega, ?_, ?_⟩
      · rw [getD_erasePtAt_lt _ _ _ (by omega)]
      · rw [← is_maximum_erase_left (by omega) hi]
        exact hlim
    · refine ⟨i, by omega, ?_, ?_⟩
      · rw [getD_erasePtAt_ge _ _ _ hi (le_refl i)]
      · rw [← is_maximum_erase_right hir]
        exact hrim
  · rintro ⟨j, hj, hgetD, hchk⟩
    rw [hlen] at hj
    by_cases hjl : i ≠ 0 ∧ j = i - 1
    · obtain ⟨hi0, rfl⟩ := hjl
      rw [getD_erasePtAt_lt _ _ _ (by omega)] at hgetD
      rw [← is_maximum_erase_left (by omega) hi] at hchk
      subst hgetD
      refine ⟨Or.inr (Or.inl ⟨hi0, hchk, rfl⟩), ?_, ?_, ?_⟩
      · rintro ⟨-, hc⟩
        exact hne_arg (by omega) hi (by omega) hc
      · rintro ⟨-, hc, -, -⟩
        rw [hchk] at hc
        cases hc
      · rintro ⟨hir, -, -, hc⟩
        exact hne_arg (by omega) (by omega) (by omega) hc
    · by_cases hji : j = i
      · subst hji
        have hir : j + 1 < l.length := by omega
        rw [getD_erasePtAt_ge _ _ _ hi (le_refl j)] at hgetD
        rw [← is_maximum_erase_right hir] at hchk
        subst hgetD
        refine ⟨Or.inr (Or.inr ⟨hir, hchk, rfl⟩), ?_, ?_, ?_⟩
        · rintro ⟨-, hc⟩
          exact hne_arg (by omega) hi (by omega) hc
        · rintro ⟨hi0, -, -, hc⟩
          exact hne_arg (by omega) (by omega) (by omega) hc
        · rintro ⟨-, hc, -, -⟩
          rw [hchk] at hc
          cases hc
      · have hfar : j + 2 ≤ i ∨ i + 1 ≤ j := by
          rcases Nat.lt_or_ge j i with hlt | hge
          · left
            have : j ≠ i - 1 := fun hc => hjl ⟨by omega, hc⟩
            omega
          · right
            omega
        rcases hfar with hfl | hfr
        · rw [getD_erasePtAt_lt _ _ _ (by omega)] at hgetD
          rw [maximum_check_erase_far_left hi (by omega)] at hchk
          subst hgetD
          have hpm : l.getD j default ∈ m := (hinv _).mpr ⟨j, by omega, rfl, hchk⟩
          refine ⟨Or.inl hpm, ?_, ?_, ?_⟩
          · rintro ⟨-, hc⟩
            exact hne_arg (by omega) hi (by omega) hc
          · rintro ⟨hi0, -, -, hc⟩
            exact hne_arg (by omega) (by omega) (by omega) hc.symm
          · rintro ⟨hir, -, -, hc⟩
            exact hne_arg (by omega) (by omega) (by omega) hc.symm
        · rw [getD_erasePtAt_ge _ _ _ hi (by omega)] at hgetD
          rw [maximum_check_erase_far_right hi (by omega)] at hchk
          subst hgetD
          have hpm : l.getD (j + 1) default ∈ m :=
            (hinv _).mpr ⟨j + 1, by omega, rfl, hchk⟩
          refine ⟨Or.inl hpm, ?_, ?_, ?_⟩
          · rintro ⟨-, hc⟩
            exact hne_arg (by omega) hi (by omega) hc
          · rintro ⟨hi0, -, -, hc⟩
            exact hne_arg (by omega) (by omega) (by omega) hc.symm
          · rintro ⟨hir, -, -, hc⟩
            exact hne_arg (by omega) (by omega) (by omega) hc.symm

theorem sortedArg_erasePtAt {l : List (point_type α β)} (hs : SortedArg l)
    (i : Nat) : SortedArg (erasePtAt l i) := by
  unfold SortedArg at hs ⊢
  exact hs.sublist (erasePtAt_sublist l i)

/-- **Correctness of `set_value`'s incremental maxima repair, rewrite
case**: when the argument was present and its value slot is rewritten in
place, the staged edits produce exactly the local maxima of the updated
graph. -/
theorem set_value_maxima_inv_found {l m : List (point_type α β)} {i : Nat} {v : β}
    (hi : i < l.length) (hs : SortedArg l)
    (hinv : ∀ p' : point_type α β, p' ∈ m ↔
      ∃ j, j < l.length ∧ l.getD j default = p' ∧ maximum_check l j = true)
    (hvne : ¬ (l.getD i default).value = v)
    (p : point_type α β) :
    p ∈ set_value_maxima (l.set i ⟨(l.getD i default).arg, v⟩) i m
        (some (l.getD i default)) ↔
      ∃ j, j < (l.set i ⟨(l.getD i default).arg, v⟩).length ∧
        (l.set i ⟨(l.getD i default).arg, v⟩).getD j default = p ∧
        maximum_check (l.set i ⟨(l.getD i default).arg, v⟩) j = true := by
  have hne_arg : ∀ {j k : Nat}, j < l.length → k < l.length → j ≠ k →
      l.getD j default ≠ l.getD k default := by
    intro j k hj hk hjk hc
    exact hjk (sortedArg_arg_inj hs hj hk (congrArg point_type.arg hc))
  have hlen : (l.set i ⟨(l.getD i default).arg, v⟩).length = l.length := by
    simp
  have hget_self : (l.set i ⟨(l.getD i default).arg, v⟩).getD i default =
      ⟨(l.getD i default).arg, v⟩ := getD_set_self l i _ hi
  have hget_ne : ∀ {j : Nat}, j ≠ i →
      (l.set i ⟨(l.getD i default).arg, v⟩).getD j default = l.getD j default :=
    fun hj => getD_set_ne l i _ _ (fun hc => hj hc.symm)
  have hpt_ne_q : (⟨(l.getD i default).arg, v⟩ : point_type α β) ≠
      l.getD i default := by
    intro hc
    exact hvne (by rw [← hc])
  rw [mem_set_value_maxima_some]
  constructor
  · rintro ⟨hmem, hner, hnel, hnerr, hnspec⟩
    rcases hmem with hpm | ⟨hw, rfl⟩ | ⟨hi0, hwl, -, rfl⟩ | ⟨hir, hwr, -, rfl⟩
    · obtain ⟨j, hj, hjp, hchk⟩ := (hinv p).mp hpm
      subst hjp
      by_cases hji : j = i
      · subst hji
        exfalso
        cases hx : maximum_check (l.set j ⟨(l.getD j default).arg, v⟩) j
        · exact hner ⟨hx, hpm, rfl⟩
        · exact hnspec ⟨hx, hpm, rfl⟩
      · by_cases hjl : i ≠ 0 ∧ j = i - 1
        · obtain ⟨hi0, rfl⟩ := hjl
          rw [hget_ne (by omega)] at hnel
          have hwl : maximum_check (l.set i ⟨(l.getD i default).arg, v⟩) (i - 1) =
              true := by
            cases hx : maximum_check (l.set i ⟨(l.getD i default).arg, v⟩) (i - 1)
            · exact absurd ⟨Or.inr hx, hi0, hpm, rfl⟩ hnel
            · rfl
          exact ⟨i - 1, by omega, hget_ne (by omega), hwl⟩
        · by_cases hjr : j = i + 1
          · subst hjr
            rw [hget_ne (by omega), hlen] at hnerr
            have hwr : maximum_check (l.set i ⟨(l.getD i default).arg, v⟩) (i + 1) =
                true := by
              cases hx : maximum_check (l.set i ⟨(l.getD i default).arg, v⟩) (i + 1)
              · exact absurd ⟨Or.inr hx, by omega, hpm, rfl⟩ hnerr
              · rfl
            exact ⟨i + 1, by omega, hget_ne (by omega), hwr⟩
          · refine ⟨j, by omega, hget_ne hji, ?_⟩
            rw [maximum_check_set_far hji (by omega) hjr]
            exact hchk
    · exact ⟨i, by omega, rfl, hw⟩
    · exact ⟨i - 1, by omega, rfl, hwl⟩
    · exact ⟨i + 1, by omega, rfl, hwr⟩
  · rintro ⟨j, hj, hgetD, hchk⟩
    rw [hlen] at hj
    by_cases hji : j = i
    · subst hji
      rw [hget_self] at hgetD
      subst hgetD
      refine ⟨Or.inr (Or.inl ⟨hchk, hget_self.symm⟩), ?_, ?_, ?_, ?_⟩
      · rintro ⟨-, -, hc⟩
        exact hpt_ne_q hc
      · rintro ⟨-, hi0, -, hc⟩
        rw [hget_ne (show j - 1 ≠ j from by omega)] at hc
        have harg : (l.getD j default).arg = (l.getD (j - 1) default).arg := by
          rw [← hc]
        exact absurd (sortedArg_arg_inj hs hi (by omega) harg) (by omega)
      · rintro ⟨-, hir, -, hc⟩
        rw [hlen] at hir
        rw [hget_ne (show j + 1 ≠ j from by omega)] at hc
        have harg : (l.getD j default).arg = (l.getD (j + 1) default).arg := by
          rw [← hc]
        exact absurd (sortedArg_arg_inj hs hi (by omega) harg) (by omega)
      · rintro ⟨-, -, hc⟩
        exact hpt_ne_q hc
    · by_cases hjl : i ≠ 0 ∧ j = i - 1
      · obtain ⟨hi0, rfl⟩ := hjl
        rw [hget_ne (by omega)] at hgetD
        subst hgetD
        by_cases hex : l.getD (i - 1) default ∈ m
        · refine ⟨Or.inl hex, ?_, ?_, ?_, ?_⟩
          · rintro ⟨-, -, hc⟩
            exact hne_arg (by omega) hi (by omega) hc
          · rintro ⟨hfac, -, -, -⟩
            rcases hfac with hfac | hfac
            · exact hfac hi0
            · rw [hchk] at hfac
              cases hfac
          · rintro ⟨-, hir, -, hc⟩
            rw [hlen] at hir
            rw [hget_ne (by omega)] at hc
            exact hne_arg (by omega) (by omega) (by omega) hc
          · rintro ⟨-, -, hc⟩
            exact hne_arg (by omega) hi (by omega) hc
        · refine ⟨Or.inr (Or.inr (Or.inl ⟨hi0, hchk, Or.inr ?_,
            (hget_ne (show i - 1 ≠ i from by omega)).symm⟩)), ?_, ?_, ?_, ?_⟩
          · rw [hget_ne (show i - 1 ≠ i from by omega)]
            exact hex
          · rintro ⟨-, -, hc⟩
            exact hne_arg (by omega) hi (by omega) hc
          · rintro ⟨-, -, hmm, -⟩
            rw [hget_ne (by omega)] at hmm
            exact hex hmm
          · rintro ⟨-, hir, -, hc⟩
            rw [hlen] at hir
            rw [hget_ne (by omega)] at hc
            exact hne_arg (by omega) (by omega) (by omega) hc
          · rintro ⟨-, -, hc⟩
            exact hne_arg (by omega) hi (by omega) hc
      · by_cases hjr : j = i + 1
        · subst hjr
          rw [hget_ne (by omega)] at hgetD
          subst hgetD
          by_cases hex : l.getD (i + 1) default ∈ m
          · refine ⟨Or.inl hex, ?_, ?_, ?_, ?_⟩
            · rintro ⟨-, -, hc⟩
              exact hne_arg (by omega) hi (by omega) hc
            · rintro ⟨-, hi0, -, hc⟩
              rw [hget_ne (by omega)] at hc
              exact hne_arg (by omega) (by omega) (by omega) hc
            · rintro ⟨hfac, -, -, -⟩
              rcases hfac with hfac | hfac
              · rw [hlen] at hfac
                exact hfac (by omega)
              · rw [hchk] at hfac
                cases hfac
            · rintro ⟨-, -, hc⟩
              exact hne_arg (by omega) hi (by omega) hc
          · refine ⟨Or.inr (Or.inr (Or.inr ⟨by omega, hchk, Or.inr ?_,
              (hget_ne (show i + 1 ≠ i from by omega)).symm⟩)), ?_, ?_, ?_, ?_⟩
            · rw [hget_ne (show i + 1 ≠ i from by omega)]
              exact hex
            · rintro ⟨-, -, hc⟩
              exact hne_arg (by omega) hi (by omega) hc
            · rintro ⟨-, hi0, -, hc⟩
              rw [hget_ne (by omega)] at hc
              exact hne_arg (by omega) (by omega) (by omega) hc
            · rintro ⟨-, -, hmm, -⟩
              rw [hget_ne (by omega)] at hmm
              exact hex hmm
            · rintro ⟨-, -, hc⟩
              exact hne_arg (by omega) hi (by omega) hc
        · rw [hget_ne hji] at hgetD
          subst hgetD
          have hj1i : j + 1 ≠ i := by
            intro hc
            exact hjl ⟨by omega, by omega⟩
          rw [maximum_check_set_far hji hj1i hjr] at hchk
          have hpm : l.getD j default ∈ m := (hinv _).mpr ⟨j, by omega, rfl, hchk⟩
          refine ⟨Or.inl hpm, ?_, ?_, ?_, ?_⟩
          · rintro ⟨-, -, hc⟩
            exact hne_arg (by omega) hi hji hc
          · rintro ⟨-, hi0, -, hc⟩
            rw [hget_ne (by omega)] at hc
            exact hne_arg (by omega) (by omega) (by omega) hc
          · rintro ⟨-, hir, -, hc⟩
            rw [hlen] at hir
            rw [hget_ne (by omega)] at hc
            exact hne_arg (by omega) (by omega) (by omega) hc
          · rintro ⟨-, -, hc⟩
            exact hne_arg (by omega) hi hji hc

/-- **Correctness of `set_value`'s incremental maxima repair, insert
case**: when the argument was absent and a fresh point is inserted, the
staged edits produce exactly the local maxima of the extended graph. -/
theorem set_value_maxima_inv_insert {l m : List (point_type α β)}
    {x : point_type α β} (hs : SortedArg l)
    (hinv : ∀ p' : point_type α β, p' ∈ m ↔
      ∃ j, j < l.length ∧ l.getD j default = p' ∧ maximum_check l j = true)
    (habs : ∀ p' ∈ l, p'.arg ≠ x.arg)
    (p : point_type α β) :
    p ∈ set_value_maxima (fun_insert l x) (fun_insert_idx l x) m none ↔
      ∃ j, j < (fun_insert l x).length ∧ (fun_insert l x).getD j default = p ∧
        maximum_check (fun_insert l x) j = true := by
  have hk := fun_insert_idx_le l x
  have hlen := length_fun_insert l x
  have hgself := getD_fun_insert_self l x
  have hne_arg : ∀ {j k : Nat}, j < l.length → k < l.length → j ≠ k →
      l.getD j default ≠ l.getD k default := by
    intro j k hj hk hjk hc
    exact hjk (sortedArg_arg_inj hs hj hk (congrArg point_type.arg hc))
  have hx_ne : ∀ {j : Nat}, j < l.length → l.getD j default ≠ x := by
    intro j hj hc
    exact habs _ (mem_iff_getD.mpr ⟨j, hj, rfl⟩) (congrArg point_type.arg hc)
  rw [mem_set_value_maxima_none]
  constructor
  · rintro ⟨hmem, hnel, hnerr⟩
    rcases hmem with hpm | ⟨hw, rfl⟩ | ⟨hk0, hwl, -, rfl⟩ | ⟨hkr, hwr, -, rfl⟩
    · obtain ⟨j, hj, hjp, hchk⟩ := (hinv p).mp hpm
      subst hjp
      by_cases hjl : fun_insert_idx l x ≠ 0 ∧ j = fun_insert_idx l x - 1
      · obtain ⟨hk0, rfl⟩ := hjl
        rw [getD_fun_insert_lt (show fun_insert_idx l x - 1 < fun_insert_idx l x
          from by omega)] at hnel
        have hwl : maximum_check (fun_insert l x) (fun_insert_idx l x - 1) =
            true := by
          cases hx : maximum_check (fun_insert l x) (fun_insert_idx l x - 1)
          · exact absurd ⟨Or.inr hx, hk0, hpm, rfl⟩ hnel
          · rfl
        exact ⟨fun_insert_idx l x - 1, by omega,
          getD_fun_insert_lt (by omega), hwl⟩
      · by_cases hjk : j = fun_insert_idx l x
        · subst hjk
          have hrp : (fun_insert l x).getD (fun_insert_idx l x + 1) default =
              l.getD (fun_insert_idx l x) default := by
            rw [getD_fun_insert_gt (show fun_insert_idx l x <
              fun_insert_idx l x + 1 from by omega), Nat.add_sub_cancel]
          rw [hrp] at hnerr
          have hwr : maximum_check (fun_insert l x) (fun_insert_idx l x + 1) =
              true := by
            cases hx : maximum_check (fun_insert l x) (fun_insert_idx l x + 1)
            · exact absurd ⟨Or.inr hx, by omega, hpm, rfl⟩ hnerr
            · rfl
          exact ⟨fun_insert_idx l x + 1, by omega, hrp, hwr⟩
        · by_cases hlt : j < fun_insert_idx l x
          · have hfar : j + 1 < fun_insert_idx l x := by
              rcases Nat.eq_or_lt_of_le (Nat.succ_le_of_lt hlt) with heq | hlt'
              · exact absurd ⟨by omega, by omega⟩ hjl
              · exact hlt'
            refine ⟨j, by omega, getD_fun_insert_lt hlt, ?_⟩
            rw [maximum_check_insert_far_left hfar]
            exact hchk
          · have hgt : fun_insert_idx l x < j + 1 := by omega
            refine ⟨j + 1, by omega, ?_, ?_⟩
            · rw [getD_fun_insert_gt hgt, Nat.add_sub_cancel]
            · rw [maximum_check_insert_far_right (by omega), Nat.add_sub_cancel]
              exact hchk
    · exact ⟨fun_insert_idx l x, by omega, rfl, hw⟩
    · exact ⟨fun_insert_idx l x - 1, by omega, rfl, hwl⟩
    · exact ⟨fun_insert_idx l x + 1, by omega, rfl, hwr⟩
  · rintro ⟨j, hj, hgetD, hchk⟩
    rw [hlen] at hj
    by_cases hjk : j = fun_insert_idx l x
    · subst hjk
      rw [hgself] at hgetD
      subst hgetD
      refine ⟨Or.inr (Or.inl ⟨hchk, hgself.symm⟩), ?_, ?_⟩
      · rintro ⟨-, hk0, -, hc⟩
        rw [getD_fun_insert_lt (show fun_insert_idx l x - 1 < fun_insert_idx l x
          from by omega)] at hc
        exact hx_ne (by omega) hc.symm
      · rintro ⟨-, hkr, -, hc⟩
        rw [hlen] at hkr
        rw [getD_fun_insert_gt (show fun_insert_idx l x <
          fun_insert_idx l x + 1 from by omega), Nat.add_sub_cancel] at hc
        exact hx_ne (by omega) hc.symm
    · by_cases hjl : fun_insert_idx l x ≠ 0 ∧ j = fun_insert_idx l x - 1
      · obtain ⟨hk0, rfl⟩ := hjl
        rw [getD_fun_insert_lt (show fun_insert_idx l x - 1 < fun_insert_idx l x
          from by omega)] at hgetD
        subst hgetD
        by_cases hex : l.getD (fun_insert_idx l x - 1) default ∈ m
        · refine ⟨Or.inl hex, ?_, ?_⟩
          · rintro ⟨hfac, -, -, -⟩
            rcases hfac with hfac | hfac
            · exact hfac hk0
            · rw [hchk] at hfac
              cases hfac
          · rintro ⟨-, hkr, -, hc⟩
            rw [hlen] at hkr
            rw [getD_fun_insert_gt (show fun_insert_idx l x <
              fun_insert_idx l x + 1 from by omega)] at hc
            exact hne_arg (by omega) (by omega) (by omega) hc
        · refine ⟨Or.inr (Or.inr (Or.inl ⟨hk0, hchk, Or.inr ?_,
            (getD_fun_insert_lt (show fun_insert_idx l x - 1 <
              fun_insert_idx l x from by omega)).symm⟩)), ?_, ?_⟩
          · rw [getD_fun_insert_lt (show fun_insert_idx l x - 1 <
              fun_insert_idx l x from by omega)]
            exact hex
          · rintro ⟨hfac, -, -, -⟩
            rcases hfac with hfac | hfac
            · exact hfac hk0
            · rw [hchk] at hfac
              cases hfac
          · rintro ⟨-, hkr, -, hc⟩
            rw [hlen] at hkr
            rw [getD_fun_insert_gt (show fun_insert_idx l x <
              fun_insert_idx l x + 1 from by omega)] at hc
            exact hne_arg (by omega) (by omega) (by omega) hc
      · by_cases hjr : j = fun_insert_idx l x + 1
        · subst hjr
          have hkr : fun_insert_idx l x < l.length := by omega
          have hrp : (fun_insert l x).getD (fun_insert_idx l x + 1) default =
              l.getD (fun_insert_idx l x) default := by
            rw [getD_fun_insert_gt (show fun_insert_idx l x <
              fun_insert_idx l x + 1 from by omega), Nat.add_sub_cancel]
          rw [hrp] at hgetD
          subst hgetD
          by_cases hex : l.getD (fun_insert_idx l x) default ∈ m
          · refine ⟨Or.inl hex, ?_, ?_⟩
            · rintro ⟨-, hk0, -, hc⟩
              rw [getD_fun_insert_lt (show fun_insert_idx l x - 1 <
                fun_insert_idx l x from by omega)] at hc
              exact hne_arg (by omega) (by omega) (by omega) hc
            · rintro ⟨hfac, -, -, -⟩
              rcases hfac with hfac | hfac
              · rw [hlen] at hfac
                exact hfac (by omega)
              · rw [hchk] at hfac
                cases hfac
          · refine ⟨Or.inr (Or.inr (Or.inr ⟨by omega, hchk, Or.inr ?_,
              hrp.symm⟩)), ?_, ?_⟩
            · rw [hrp]
              exact hex
            · rintro ⟨-, hk0, -, hc⟩
              rw [getD_fun_insert_lt (show fun_insert_idx l x - 1 <
                fun_insert_idx l x from by omega)] at hc
              exact hne_arg (by omega) (by omega) (by omega) hc
            · rintro ⟨hfac, -, -, -⟩
              rcases hfac with hfac | hfac
              · rw [hlen] at hfac
                exact hfac (by omega)
              · rw [hchk] at hfac
                cases hfac
        · by_cases hlt : j < fun_insert_idx l x
          · have hfar : j + 1 < fun_insert_idx l x := by
              rcases Nat.eq_or_lt_of_le (Nat.succ_le_of_lt hlt) with heq | hlt'
              · exact absurd ⟨by omega, by omega⟩ hjl
              · exact hlt'
            rw [getD_fun_insert_lt hlt] at hgetD
            subst hgetD
            rw [maximum_check_insert_far_left hfar] at hchk
            have hpm : l.getD j default ∈ m :=
              (hinv _).mpr ⟨j, by omega, rfl, hchk⟩
            refine ⟨Or.inl hpm, ?_, ?_⟩
            · rintro ⟨-, hk0, -, hc⟩
              rw [getD_fun_insert_lt (show fun_insert_idx l x - 1 <
                fun_insert_idx l x from by omega)] at hc
              exact hne_arg (by omega) (by omega) (by omega) hc
            · rintro ⟨-, hkr, -, hc⟩
              rw [hlen] at hkr
              rw [getD_fun_insert_gt (show fun_insert_idx l x <
                fun_insert_idx l x + 1 from by omega)] at hc
              exact hne_arg (by omega) (by omega) (by omega) hc
          · have hgt : fun_insert_idx l x + 2 ≤ j := by omega
            rw [getD_fun_insert_gt (by omega)] at hgetD
            subst hgetD
            rw [maximum_check_insert_far_right hgt] at hchk
            have hpm : l.getD (j - 1) default ∈ m :=
              (hinv _).mpr ⟨j - 1, by omega, rfl, hchk⟩
            refine ⟨Or.inl hpm, ?_, ?_⟩
            · rintro ⟨-, hk0, -, hc⟩
              rw [getD_fun_insert_lt (show fun_insert_idx l x - 1 <
                fun_insert_idx l x from by omega)] at hc
              exact hne_arg (by omega) (by omega) (by omega) hc
            · rintro ⟨-, hkr, -, hc⟩
              rw [hlen] at hkr
              rw [getD_fun_insert_gt (show fun_insert_idx l x <
                fun_insert_idx l x + 1 from by omega)] at hc
              exact hne_arg (by omega) (by omega) (by omega) hc

end Reindexing

/-! ## Invariant preservation and claim C1 -/

section Preservation

variable {α β : Type} [LinearOrder α] [LinearOrder β] [Inhabited α] [Inhabited β]

theorem inv_empty : Inv (FunctionMaxima.empty : FunctionMaxima α β) := by
  refine ⟨List.Pairwise.nil, List.Pairwise.nil, ?_⟩
  intro p
  simp [FunctionMaxima.empty]

theorem inv_erase {s : FunctionMaxima α β} (hInv : Inv s) (a : α) :
    Inv (s.erase a) := by
  obtain ⟨hs, hm, hinv⟩ := hInv
  unfold FunctionMaxima.erase
  by_cases hfound : s.find_idx a < s.fun_.length
  · rw [if_pos hfound]
    exact ⟨sortedArg_erasePtAt hs _, sortedMx_erase_maxima hm,
      fun p => erase_maxima_inv hfound hs hinv p⟩
  · rw [if_neg hfound]
    exact ⟨hs, hm, hinv⟩

theorem inv_set_value {s : FunctionMaxima α β} (hInv : Inv s) (a : α) (v : β) :
    Inv (s.set_value a v) := by
  obtain ⟨hs, hm, hinv⟩ := hInv
  simp only [FunctionMaxima.set_value]
  split
  · exact ⟨hs, hm, hinv⟩
  · rename_i hcond
    split
    · rename_i hfound
      rw [decide_eq_true_eq] at hfound
      have hvne : ¬ (s.fun_.getD (s.find_idx a) default).value = v := by
        intro hc
        apply hcond
        rw [getD_eq_getElem _ _ hfound] at hc
        simp [hc, hfound]
      refine ⟨sortedArg_set hs hfound rfl, ?_, ?_⟩
      · have h2 : SortedMx (set_value_maxima
            (s.fun_.set (s.find_idx a) ⟨(s.fun_.getD (s.find_idx a) default).arg, v⟩)
            (s.find_idx a) s.maxima (some (s.fun_.getD (s.find_idx a) default))) :=
          sortedMx_set_value_maxima hm
        exact h2
      · exact fun p => set_value_maxima_inv_found hfound hs hinv hvne p
    · rename_i hfound
      have hnfound : ¬ s.find_idx a < s.fun_.length := by
        intro hc
        exact hfound (by simp [hc])
      have habs : ∀ p' ∈ s.fun_, p'.arg ≠ (⟨a, v⟩ : point_type α β).arg := by
        have hle := @List.findIdx_le_length _ (arg_equiv a) s.fun_
        have heq : s.find_idx a = s.fun_.length := by
          unfold FunctionMaxima.find_idx at hnfound ⊢
          omega
        exact find_idx_eq_length_iff.mp heq
      refine ⟨sortedArg_fun_insert hs habs, ?_, ?_⟩
      · have h2 : SortedMx (set_value_maxima
            (fun_insert s.fun_ ⟨a, v⟩)
            (fun_insert_idx s.fun_ ⟨a, v⟩) s.maxima none) :=
          sortedMx_set_value_maxima hm
        exact h2
      · exact fun p => set_value_maxima_inv_insert hs hinv habs p

theorem inv_step {s : FunctionMaxima α β} (hInv : Inv s)
    (o : FunctionMaxima.Op α β) : Inv (FunctionMaxima.step s o) := by
  cases o with
  | set a v => exact inv_set_value hInv a v
  | ers a => exact inv_erase hInv a

theorem inv_run (ops : List (FunctionMaxima.Op α β)) :
    Inv (FunctionMaxima.run ops) := by
  unfold FunctionMaxima.run
  have hgen : ∀ (s : FunctionMaxima α β), Inv s →
      Inv (ops.foldl FunctionMaxima.step s) := by
    induction ops with
    | nil => exact fun s hs => hs
    | cons o os ih =>
      intro s hs
      rw [List.foldl_cons]
      exact ih _ (inv_step hs o)
  exact hgen _ inv_empty

/-- `maximum_check` spelt out: not strictly below the left neighbour
(or leftmost), and not strictly below the right neighbour (or
rightmost). -/
theorem maximum_check_iff {l : List (point_type α β)} {i : Nat} :
    maximum_check l i = true ↔
      ((i = 0 ∨ ¬ (l.getD i default).value < (l.getD (i - 1) default).value) ∧
        (i + 1 = l.length ∨
          ¬ (l.getD i default).value < (l.getD (i + 1) default).value)) := by
  unfold maximum_check left_checker right_checker
  by_cases h0 : i = 0 <;> by_cases hl : i + 1 = l.length <;> simp [h0, hl]

end Preservation

/-! ## The claims -/

section Claims

variable {α β : Type} [LinearOrder α] [LinearOrder β] [Inhabited α] [Inhabited β]

/-- **C1**: after every sequence of `set_value` and `erase` operations on
an initially empty container, the maxima set contains exactly those
points of the domain that are local maxima: the point's value is not
strictly less than its left neighbour's (or it has no left neighbour)
and not strictly less than its right neighbour's (or it has no right
neighbour). -/
theorem claim_C1_maxima_exactly_local_maxima
    (ops : List (FunctionMaxima.Op α β)) (p : point_type α β) :
    p ∈ (FunctionMaxima.run ops).maxima ↔
      ∃ i, i < (FunctionMaxima.run ops).fun_.length ∧
        (FunctionMaxima.run ops).fun_.getD i default = p ∧
        (i = 0 ∨ ¬ ((FunctionMaxima.run ops).fun_.getD i default).value <
          ((FunctionMaxima.run ops).fun_.getD (i - 1) default).value) ∧
        (i + 1 = (FunctionMaxima.run ops).fun_.length ∨
          ¬ ((FunctionMaxima.run ops).fun_.getD i default).value <
            ((FunctionMaxima.run ops).fun_.getD (i + 1) default).value) := by
  have h := (inv_run ops).2.2 p
  rw [h]
  constructor
  · rintro ⟨i, hi, hp, hchk⟩
    exact ⟨i, hi, hp, (maximum_check_iff.mp hchk).1, (maximum_check_iff.mp hchk).2⟩
  · rintro ⟨i, hi, hp, h1, h2⟩
    exact ⟨i, hi, hp, maximum_check_iff.mpr ⟨h1, h2⟩⟩

/-- **C5**: the maxima comparator satisfies `lhs < rhs` iff
`rhs.value < lhs.value`, or the values are equal (neither less than the
other) and `lhs.arg < rhs.arg`; consequently, on every reachable
container, iterating `mx_begin..mx_end` yields the maxima in
non-increasing value order, points of equal value in strictly
increasing argument order. -/
theorem claim_C5_maxima_iteration_order (ops : List (FunctionMaxima.Op α β)) :
    (∀ x y : point_type α β, maxima_order x y = true ↔
      (y.value < x.value ∨
        (¬ x.value < y.value ∧ ¬ y.value < x.value ∧ x.arg < y.arg))) ∧
    (FunctionMaxima.run ops).maxima.Pairwise
      (fun p q => q.value ≤ p.value ∧ (p.value = q.value → p.arg < q.arg)) := by
  refine ⟨maxima_order_iff, ?_⟩
  have hmx := (inv_run ops).2.1
  unfold SortedMx at hmx
  refine hmx.imp ?_
  intro p q h
  rw [maxima_order_iff] at h
  rcases h with h | ⟨h1, h2, h3⟩
  · exact ⟨le_of_lt h, fun heq => absurd (heq ▸ h) (lt_irrefl _)⟩
  · exact ⟨le_of_eq (le_antisymm (not_lt.mp h1) (not_lt.mp h2)), fun _ => h3⟩

/-- **C7**: `set_value(a, v)` when `a` is already mapped to a value equal
to `v` (`!(cur < v) && !(v < cur)`) is a no-op: the whole observable
state — domain, values, the maxima set with its order, and size — is
unchanged. -/
theorem claim_C7_equal_value_noop (s : FunctionMaxima α β) (a : α) (v : β)
    (hfound : s.find_idx a < s.fun_.length)
    (h₁ : ¬ (s.fun_.getD (s.find_idx a) default).value < v)
    (h₂ : ¬ v < (s.fun_.getD (s.find_idx a) default).value) :
    s.set_value a v = s := by
  simp only [FunctionMaxima.set_value]
  rw [if_pos]
  simp only [Bool.and_eq_true, decide_eq_true_eq, Bool.not_eq_true',
    decide_eq_false_iff_not]
  exact ⟨⟨hfound, h₁⟩, h₂⟩

/-- Witness for C7: in the container \{(1,5)\}, `set_value 1 5` is a
no-op. -/
theorem claim_C7_equal_value_noop_witness :
    FunctionMaxima.set_value
      (FunctionMaxima.run [.set 1 5] : FunctionMaxima ℕ ℕ) 1 5 =
      FunctionMaxima.run [.set 1 5] :=
  claim_C7_equal_value_noop _ 1 5 (by decide) (by decide) (by decide)

/-- **C10**: on a valid (dereferenceable) iterator, the hint-less
predicate `maximum_check` used by `set_value` and the hinted predicate
`is_maximum` used by `erase` agree when the hint is `end()`
(`tE = l.length`). -/
theorem claim_C10_maximum_check_eq_is_maximum
    (l : List (point_type α β)) (i : Nat) (hi : i < l.length) :
    maximum_check l i = is_maximum l i l.length :=
  maximum_check_eq_is_maximum_end hi

/-- Witness for C10 on the three-point graph (1,5),(2,7),(3,6) at its
middle point. -/
theorem claim_C10_maximum_check_eq_is_maximum_witness :
    maximum_check [⟨1, 5⟩, ⟨2, 7⟩, ⟨3, 6⟩] 1 =
      is_maximum ([⟨1, 5⟩, ⟨2, 7⟩, ⟨3, 6⟩] : List (point_type ℕ ℕ)) 1 3 :=
  claim_C10_maximum_check_eq_is_maximum _ 1 (by decide)

/-- Following the claim's words: the left check returns true if `it` is
the leftmost entry; otherwise it takes `left = predecessor(it)`, steps
`left` back once more when `left == to_erase` (returning true if that
steps off the left end), and finally returns `!(it.value < left.value)`. -/
def left_check_described (l : List (point_type α β)) (i tE : Nat) : Bool :=
  if i = 0 then true
  else if i - 1 = tE ∧ i - 1 = 0 then true
  else
    let left := if i - 1 = tE then i - 1 - 1 else i - 1
    !decide ((l.getD i default).value < (l.getD left default).value)

/-- Following the claim's words: the right check, symmetric over
successors and the right end (`l.length` is `end()`). -/
def right_check_described (l : List (point_type α β)) (i tE : Nat) : Bool :=
  if i + 1 = l.length then true
  else if i + 1 = tE ∧ i + 1 + 1 = l.length then true
  else
    let right := if i + 1 = tE then i + 1 + 1 else i + 1
    !decide ((l.getD i default).value < (l.getD right default).value)

/-- **C4**: `is_maximum(it, to_erase)` is the conjunction of the left
check and the right check exactly as the claim describes them. -/
theorem claim_C4_is_maximum_description (l : List (point_type α β))
    (i tE : Nat) :
    is_maximum l i tE =
      (left_check_described l i tE && right_check_described l i tE) := by
  unfold is_maximum
  have hL : left_check l i tE = left_check_described l i tE := by
    unfold left_check left_check_described
    by_cases h0 : i = 0
    · rw [if_pos h0, if_pos h0]
    · rw [if_neg h0, if_neg h0]
      by_cases ht : i - 1 = tE
      · by_cases hz : i - 1 = 0
        · rw [if_pos ht, if_pos hz, if_pos ⟨ht, hz⟩]
        · rw [if_pos ht, if_neg hz, if_neg (fun hc => hz hc.2)]
          simp only [if_pos ht, show i - 1 - 1 = i - 2 from by omega]
      · rw [if_neg ht, if_neg (fun hc => ht hc.1)]
        simp only [if_neg ht]
  have hR : right_check l i tE = right_check_described l i tE := by
    unfold right_check right_check_described
    by_cases h0 : i + 1 = l.length
    · rw [if_pos h0, if_pos h0]
    · rw [if_neg h0, if_neg h0]
      by_cases ht : i + 1 = tE
      · by_cases hz : i + 1 + 1 = l.length
        · rw [if_pos ht, if_pos (show i + 2 = l.length from by omega),
            if_pos ⟨ht, hz⟩]
        · rw [if_pos ht, if_neg (show ¬ (i + 2 = l.length) from by omega),
            if_neg (fun hc => hz hc.2)]
          simp only [if_pos ht, show i + 1 + 1 = i + 2 from rfl]
      · rw [if_neg ht, if_neg (fun hc => ht hc.1)]
        simp only [if_neg ht]
  rw [hL, hR]

/-- **C6**: `value_at(a)` fails with `InvalidArg` iff `find(a) == end()`
(the argument is not in the domain); otherwise it returns the value
currently mapped to `a`.  `value_at` is a read (`const` in the source):
it takes the container and returns only the result, so the container is
unchanged in both cases. -/
theorem claim_C6_value_at (s : FunctionMaxima α β) (a : α) :
    ((∃ e : InvalidArg, s.value_at a = .error e) ↔
      s.find_idx a = s.fun_.length) ∧
    (s.find_idx a < s.fun_.length →
      s.value_at a = .ok (s.fun_.getD (s.find_idx a) default).value) := by
  unfold FunctionMaxima.value_at
  constructor
  · constructor
    · rintro ⟨e, he⟩
      by_cases h : s.find_idx a = s.fun_.length
      · exact h
      · rw [if_neg h] at he
        cases he
    · intro h
      rw [if_pos h]
      exact ⟨.mk, rfl⟩
  · intro h
    rw [if_neg (by omega)]

/-- Witness for C6: the empty container errors on `value_at 0`; the
container \{(1,5)\} returns 5 at argument 1. -/
theorem claim_C6_value_at_witness :
    ((FunctionMaxima.empty : FunctionMaxima ℕ ℕ).value_at 0 = .error .mk) ∧
    ((FunctionMaxima.run [.set 1 5] : FunctionMaxima ℕ ℕ).value_at 1 = .ok 5) := by
  constructor
  · have h := (claim_C6_value_at (FunctionMaxima.empty : FunctionMaxima ℕ ℕ) 0).1.mpr
      (by decide)
    obtain ⟨e, he⟩ := h
    cases e
    exact he
  · exact (claim_C6_value_at (FunctionMaxima.run [.set 1 5] :
      FunctionMaxima ℕ ℕ) 1).2 (by decide)

/-- Points of the erased graph are exactly the old points other than the
erased one. -/
theorem mem_erasePtAt {l : List (point_type α β)} (hs : SortedArg l) {i : Nat}
    (hi : i < l.length) (p : point_type α β) :
    p ∈ erasePtAt l i ↔ p ∈ l ∧ p ≠ l.getD i default := by
  have hne_arg : ∀ {j k : Nat}, j < l.length → k < l.length → j ≠ k →
      l.getD j default ≠ l.getD k default := by
    intro j k hj hk hjk hc
    exact hjk (sortedArg_arg_inj hs hj hk (congrArg point_type.arg hc))
  simp only [mem_iff_getD]
  constructor
  · rintro ⟨j, hj, rfl⟩
    rw [length_erasePtAt _ _ hi] at hj
    by_cases hji : j < i
    · rw [getD_erasePtAt_lt _ _ _ hji]
      exact ⟨⟨j, by omega, rfl⟩, hne_arg (by omega) hi (by omega)⟩
    · rw [getD_erasePtAt_ge _ _ _ hi (by omega)]
      exact ⟨⟨j + 1, by omega, rfl⟩, hne_arg (by omega) hi (by omega)⟩
  · rintro ⟨⟨j, hj, rfl⟩, hne⟩
    have hji : j ≠ i := by
      intro hc
      subst hc
      exact hne rfl
    by_cases hlt : j < i
    · refine ⟨j, ?_, ?_⟩
      · rw [length_erasePtAt _ _ hi]
        omega
      · rw [getD_erasePtAt_lt _ _ _ hlt]
    · refine ⟨j - 1, ?_, ?_⟩
      · rw [length_erasePtAt _ _ hi]
        omega
      · rw [getD_erasePtAt_ge _ _ _ hi (by omega),
          show j - 1 + 1 = j from by omega]

/-- **C8**: `erase(a)` is a no-op when `a` is not in the domain
(`find(a) == end()`); when `a` is in the domain of a well-formed
container, afterwards `a` is no longer in the domain, `size()` drops by
one, and exactly the other points remain, each with its argument and
value unchanged. -/
theorem claim_C8_erase_semantics (s : FunctionMaxima α β) (a : α) :
    (s.find_idx a = s.fun_.length → s.erase a = s) ∧
    (SortedArg s.fun_ → s.find_idx a < s.fun_.length →
      ((s.erase a).find_idx a = (s.erase a).fun_.length ∧
        (s.erase a).size + 1 = s.size ∧
        ∀ p : point_type α β, p ∈ (s.erase a).fun_ ↔ p ∈ s.fun_ ∧ p.arg ≠ a)) := by
  constructor
  · intro h
    unfold FunctionMaxima.erase
    rw [if_neg (by omega)]
  · intro hs hfound
    have herase : s.erase a = ⟨erasePtAt s.fun_ (s.find_idx a),
        erase_maxima s.fun_ s.maxima (s.find_idx a)⟩ := by
      unfold FunctionMaxima.erase
      rw [if_pos hfound]
    have harg : (s.fun_.getD (s.find_idx a) default).arg = a := find_idx_arg hfound
    have hmem : ∀ p : point_type α β,
        p ∈ (s.erase a).fun_ ↔ p ∈ s.fun_ ∧ p.arg ≠ a := by
      intro p
      rw [herase]
      rw [show (⟨erasePtAt s.fun_ (s.find_idx a),
        erase_maxima s.fun_ s.maxima (s.find_idx a)⟩ :
        FunctionMaxima α β).fun_ = erasePtAt s.fun_ (s.find_idx a) from rfl]
      rw [mem_erasePtAt hs hfound]
      constructor
      · rintro ⟨hp, hne⟩
        refine ⟨hp, ?_⟩
        intro hc
        obtain ⟨j, hj, rfl⟩ := mem_iff_getD.mp hp
        have := sortedArg_arg_inj hs hj hfound (by rw [hc, harg])
        subst this
        exact hne rfl
      · rintro ⟨hp, hne⟩
        refine ⟨hp, ?_⟩
        intro hc
        rw [hc, harg] at hne
        exact hne rfl
    refine ⟨?_, ?_, hmem⟩
    · rw [find_idx_eq_length_iff]
      intro p hp
      exact ((hmem p).mp hp).2
    · rw [herase]
      unfold FunctionMaxima.size
      rw [show (⟨erasePtAt s.fun_ (s.find_idx a),
        erase_maxima s.fun_ s.maxima (s.find_idx a)⟩ :
        FunctionMaxima α β).fun_ = erasePtAt s.fun_ (s.find_idx a) from rfl]
      rw [length_erasePtAt _ _ hfound]
      omega

/-- Witness for C8: erasing 2 from \{(1,5),(2,3)\} empties its slot and
shrinks the size; erasing the absent 7 is a no-op. -/
theorem claim_C8_erase_semantics_witness :
    (((FunctionMaxima.run [.set 1 5, .set 2 3] : FunctionMaxima ℕ ℕ).erase 2).size + 1 =
      (FunctionMaxima.run [.set 1 5, .set 2 3] : FunctionMaxima ℕ ℕ).size) ∧
    ((FunctionMaxima.run [.set 1 5, .set 2 3] : FunctionMaxima ℕ ℕ).erase 7 =
      FunctionMaxima.run [.set 1 5, .set 2 3]) := by
  constructor
  · exact ((claim_C8_erase_semantics
      (FunctionMaxima.run [.set 1 5, .set 2 3] : FunctionMaxima ℕ ℕ) 2).2
      (by unfold SortedArg; decide) (by decide)).2.1
  · exact (claim_C8_erase_semantics
      (FunctionMaxima.run [.set 1 5, .set 2 3] : FunctionMaxima ℕ ℕ) 7).1 (by decide)

/-! ## Exception-instrumented executions

The strong-exception-safety claims quantify over executions in which a
user comparison throws.  The model below instruments the user `<` on
values with a budget: the first `fuel` comparisons succeed, every later
one throws.  Argument comparisons and allocations are modelled as
non-throwing and the unobservable `range` bookkeeping is omitted, so
every modelled execution (including every modelled throwing execution)
is a possible execution of the source.  `std::set` operations keep their
library guarantee that a throw during a search or single-element insert
leaves the set unchanged; erase-by-iterator never compares.  The
`try`/`catch` blocks of the source become `onThrow` with the catch
block's fixups. -/

section ExceptionModel

variable {α β : Type} [LinearOrder α] [LinearOrder β] [Inhabited α] [Inhabited β]

/-- State of an instrumented execution: the container and the remaining
budget of user value comparisons. -/
abbrev ExSt (α β : Type) := FunctionMaxima α β × Nat

/-- Instrumented computation: `.inl` is a propagating exception carrying
the state at the moment the exception leaves the modelled code, `.inr`
a normal result. -/
abbrev ExM (α β γ : Type) : Type := ExSt α β → ExSt α β ⊕ (γ × ExSt α β)

instance {α β : Type} : Monad (ExM α β) where
  pure x := fun s => .inr (x, s)
  bind mx f := fun s =>
    match mx s with
    | .inl s' => .inl s'
    | .inr (x, s') => f x s'

/-- One invocation of the user `<` on values: throws when the budget is
exhausted, otherwise decrements it and returns the comparison. -/
def cmpV (x y : β) : ExM α β Bool := fun s =>
  if s.2 = 0 then .inl s else .inr (decide (x < y), (s.1, s.2 - 1))

def getFM : ExM α β (FunctionMaxima α β) := fun s => .inr (s.1, s)

def setFM (c : FunctionMaxima α β) : ExM α β Unit := fun s => .inr ((), (c, s.2))

/-- `try { m } catch (...) { fix; throw; }`: every catch block of the
source rethrows after its fixups. -/
def onThrow (m : ExM α β γ) (fix : FunctionMaxima α β → FunctionMaxima α β) :
    ExM α β γ := fun s =>
  match m s with
  | .inl (c, n) => .inl (fix c, n)
  | .inr r => .inr r

/-- `maxima_order` (src lines 230-233) with instrumented value
comparisons, in the source's `||`/`&&` evaluation order. -/
def maxima_orderE (x y : point_type α β) : ExM α β Bool := do
  let b₁ ← cmpV y.value x.value
  if b₁ then pure true else do
  let b₂ ← cmpV x.value y.value
  if b₂ then pure false else do
  let b₃ ← cmpV y.value x.value
  if b₃ then pure false else
  pure (decide (x.arg < y.arg))

/-- `maxima.find(q) != end()`: scan for an element equivalent to `q`. -/
def mxContainsE (q : point_type α β) : List (point_type α β) → ExM α β Bool
  | [] => pure false
  | y :: ys => do
    let b₁ ← maxima_orderE q y
    if b₁ then mxContainsE q ys
    else do
      let b₂ ← maxima_orderE y q
      if b₂ then mxContainsE q ys
      else pure true

/-- `maxima.insert(x)` with instrumented comparisons; the new list is
returned only on success, mirroring the library's strong guarantee for
a single-element insert. -/
def mxInsertE (x : point_type α β) :
    List (point_type α β) → ExM α β (List (point_type α β))
  | [] => pure [x]
  | y :: ys => do
    let b₁ ← maxima_orderE x y
    if b₁ then pure (x :: y :: ys)
    else do
      let b₂ ← maxima_orderE y x
      if b₂ then do
        let rest ← mxInsertE x ys
        pure (y :: rest)
      else pure (y :: ys)

/-- `left_checker` (src lines 169-173) with instrumented comparison. -/
def left_checkerE (l : List (point_type α β)) (i : Nat) : ExM α β Bool :=
  if i = 0 then pure true
  else do
    let b ← cmpV (l.getD i default).value (l.getD (i - 1) default).value
    pure (!b)

/-- `right_checker` (src lines 174-178) with instrumented comparison. -/
def right_checkerE (l : List (point_type α β)) (i : Nat) : ExM α β Bool :=
  if i + 1 = l.length then pure true
  else do
    let b ← cmpV (l.getD i default).value (l.getD (i + 1) default).value
    pure (!b)

/-- `maximum_check` (src lines 180-182), short-circuit `&&`. -/
def maximum_checkE (l : List (point_type α β)) (i : Nat) : ExM α β Bool := do
  let lb ← left_checkerE l i
  if lb then right_checkerE l i else pure false

/-- `left_check` (src lines 186-197) with instrumented comparison. -/
def left_checkE (l : List (point_type α β)) (i tE : Nat) : ExM α β Bool :=
  if i = 0 then pure true
  else if i - 1 = tE then
    (if i - 1 = 0 then pure true
     else do
       let b ← cmpV (l.getD i default).value (l.getD (i - 2) default).value
       pure (!b))
  else do
    let b ← cmpV (l.getD i default).value (l.getD (i - 1) default).value
    pure (!b)

/-- `right_check` (src lines 198-207) with instrumented comparison. -/
def right_checkE (l : List (point_type α β)) (i tE : Nat) : ExM α β Bool :=
  if i + 1 = l.length then pure true
  else if i + 1 = tE then
    (if i + 2 = l.length then pure true
     else do
       let b ← cmpV (l.getD i default).value (l.getD (i + 2) default).value
       pure (!b))
  else do
    let b ← cmpV (l.getD i default).value (l.getD (i + 1) default).value
    pure (!b)

/-- `is_maximum` (src lines 208-210), short-circuit `&&`. -/
def is_maximumE (l : List (point_type α β)) (i tE : Nat) : ExM α β Bool := do
  let lb ← left_checkE l i tE
  if lb then right_checkE l i tE else pure false

/-- The value-restoring unwind of `set_value` (src lines 331-335 and
427-430): restore the old value slot in place, or remove the freshly
inserted point. -/
def rollbackFun (l' : List (point_type α β)) (i : Nat) :
    Option (point_type α β) → List (point_type α β)
  | some q => l'.set i q
  | none => erasePtAt l' i

/-- The maxima staging and commit of `set_value` (src lines 304-451)
with instrumented comparisons and the source's unwind fixups.  The
future-status computations of src lines 311-313 are OUTSIDE every
`try`/`catch` in the source: a throw there propagates with no fixup,
although the graph was already rewritten.  The inner catch of src lines
404-409 can only fire with `done_r` still false and is therefore a plain
rethrow. -/
def set_value_stageE (l' : List (point_type α β)) (i : Nat)
    (oldPt? : Option (point_type α β)) (was_maximum : Bool)
    (m₀ : List (point_type α β)) : ExM α β Unit := do
  let pt := l'.getD i default
  let leftPt := l'.getD (i - 1) default
  let rightPt := l'.getD (i + 1) default
  let left_exist := decide (i ≠ 0)
  let right_exist := decide (i + 1 < l'.length)
  let will_be_max ← maximum_checkE l' i
  let will_be_max_l ← if left_exist then maximum_checkE l' (i - 1) else pure false
  let will_be_max_r ← if right_exist then maximum_checkE l' (i + 1) else pure false
  let wasLR ← onThrow
    (do
      let wl ← if left_exist then mxContainsE leftPt m₀ else pure false
      let wr ← if right_exist then mxContainsE rightPt m₀ else pure false
      pure (wl, wr))
    (fun c => ⟨rollbackFun l' i oldPt?, c.maxima⟩)
  let was_maximum_l := wasLR.1
  let was_maximum_r := wasLR.2
  let should_be_inserted := will_be_max
  let specific_erase := will_be_max && was_maximum
  let should_be_erased := !will_be_max && was_maximum
  let should_be_inserted_l := will_be_max_l && !was_maximum_l
  let should_be_erased_l := !will_be_max_l && was_maximum_l
  let should_be_inserted_r := will_be_max_r && !was_maximum_r
  let should_be_erased_r := !will_be_max_r && was_maximum_r
  onThrow
    (do
      (if should_be_inserted then do
          let fm ← getFM
          let m' ← mxInsertE pt fm.maxima
          setFM ⟨fm.fun_, m'⟩
        else pure ())
      onThrow
        (do
          (if should_be_inserted_l then do
              let fm ← getFM
              let m' ← mxInsertE leftPt fm.maxima
              setFM ⟨fm.fun_, m'⟩
            else pure ())
          (if should_be_inserted_r then do
              let fm ← getFM
              let m' ← mxInsertE rightPt fm.maxima
              setFM ⟨fm.fun_, m'⟩
            else pure ()))
        (fun c => if should_be_inserted_l then
            ⟨c.fun_, setErase maxima_order leftPt c.maxima⟩ else c))
    (fun c =>
      ⟨rollbackFun l' i oldPt?,
        if should_be_inserted then setErase maxima_order pt c.maxima
        else c.maxima⟩)
  let fm ← getFM
  let m := fm.maxima
  let m := if should_be_erased then setErase maxima_order (oldPt?.getD default) m
    else m
  let m := if should_be_erased_l then setErase maxima_order leftPt m else m
  let m := if should_be_erased_r then setErase maxima_order rightPt m else m
  let m := if specific_erase then setErase maxima_order (oldPt?.getD default) m
    else m
  setFM ⟨fm.fun_, m⟩

/-- `set_value` (src lines 263-452) with an instrumented user comparator
on `V`. -/
def set_valueE (a : α) (v : β) : ExM α β Unit := do
  let s ← getFM
  let l := s.fun_
  let i₀ := l.findIdx (arg_equiv a)
  if i₀ < l.length then do
    let oldPt := l.getD i₀ default
    let was_maximum ← mxContainsE oldPt s.maxima
    let b₁ ← cmpV oldPt.value v
    if b₁ then do
      let l' := l.set i₀ ⟨oldPt.arg, v⟩
      setFM ⟨l', s.maxima⟩
      set_value_stageE l' i₀ (some oldPt) was_maximum s.maxima
    else do
      let b₂ ← cmpV v oldPt.value
      if b₂ then do
        let l' := l.set i₀ ⟨oldPt.arg, v⟩
        setFM ⟨l', s.maxima⟩
        set_value_stageE l' i₀ (some oldPt) was_maximum s.maxima
      else pure ()
  else do
    let x : point_type α β := ⟨a, v⟩
    let l' := fun_insert l x
    setFM ⟨l', s.maxima⟩
    set_value_stageE l' (fun_insert_idx l x) none false s.maxima

/-- `erase` (src lines 454-503) with an instrumented user comparator.
The catch at src lines 485-491 erases through `left_mx` whenever that
iterator was set — also when it was merely found (src line 470) rather
than staged by the insert at src line 468. -/
def eraseE (a : α) : ExM α β Unit := do
  let s ← getFM
  let l := s.fun_
  let i := l.findIdx (arg_equiv a)
  if i < l.length then do
    let tgt := l.getD i default
    let leftPt := l.getD (i - 1) default
    let rightPt := l.getD (i + 1) default
    let mx_present ← mxContainsE tgt s.maxima
    let lres ← (if i ≠ 0 then do
        let ilm ← is_maximumE l (i - 1) i
        if ilm then do
          let fm ← getFM
          let m' ← mxInsertE leftPt fm.maxima
          setFM ⟨fm.fun_, m'⟩
          pure (true, false)
        else do
          let fm ← getFM
          let found_l ← mxContainsE leftPt fm.maxima
          pure (found_l, found_l)
      else pure (false, false))
    let left_set := lres.1
    let should_erase_left := lres.2
    let should_erase_right ← onThrow
      (if i + 1 < l.length then do
          let irm ← is_maximumE l (i + 1) i
          if irm then do
            let fm ← getFM
            let m' ← mxInsertE rightPt fm.maxima
            setFM ⟨fm.fun_, m'⟩
            pure false
          else do
            let fm ← getFM
            let found_r ← mxContainsE rightPt fm.maxima
            pure found_r
        else pure false)
      (fun c => if left_set then ⟨c.fun_, setErase maxima_order leftPt c.maxima⟩
        else c)
    let fm ← getFM
    let m := fm.maxima
    let m := if mx_present then setErase maxima_order tgt m else m
    let l' := erasePtAt fm.fun_ i
    let m := if should_erase_left then setErase maxima_order leftPt m else m
    let m := if should_erase_right then setErase maxima_order rightPt m else m
    setFM ⟨l', m⟩
  else pure ()

/-- Sanity: on an execution with ample budget (no throw), the
instrumented `set_value` ends in the successful-execution state. -/
example :
    (match set_valueE 1 5 ((FunctionMaxima.empty : FunctionMaxima ℕ ℕ), 50) with
      | .inl _ => none
      | .inr (_, st) => some st.1) =
      some (FunctionMaxima.set_value FunctionMaxima.empty 1 5) := by
  decide

/-- Sanity: same for the instrumented `erase`. -/
example :
    (match eraseE 2 ((FunctionMaxima.run [.set 1 4, .set 2 6] :
        FunctionMaxima ℕ ℕ), 50) with
      | .inl _ => none
      | .inr (_, st) => some st.1) =
      some (FunctionMaxima.erase (FunctionMaxima.run [.set 1 4, .set 2 6]) 2) := by
  decide

/-- **C2 is violated by the code**: there is an execution of
`set_value(2, 20)` on the container mapping 1 ↦ 10 and 2 ↦ 10 in which
the user value comparator throws — at the `maximum_check` call of src
line 311, which runs after the graph rewrite of src line 295 but outside
every `try`/`catch` — and after the exception propagates the container
is NOT in its pre-call state: the new value 20 is still installed at
argument 2 and the maxima set still holds the stale point (2, 10). -/
theorem claim_C2_set_value_throw_leaves_state_changed :
    set_valueE 2 20
        ((FunctionMaxima.run [.set 1 10, .set 2 10] : FunctionMaxima ℕ ℕ), 13) =
      .inl (⟨[⟨1, 10⟩, ⟨2, 20⟩], [⟨1, 10⟩, ⟨2, 10⟩]⟩, 0) ∧
    (⟨[⟨1, 10⟩, ⟨2, 20⟩], [⟨1, 10⟩, ⟨2, 10⟩]⟩ : FunctionMaxima ℕ ℕ) ≠
      FunctionMaxima.run [.set 1 10, .set 2 10] := by
  exact ⟨by decide, by decide⟩

/-- **C3 is violated by the code**: there is an execution of `erase(2)`
on the container mapping 1 ↦ 2, 2 ↦ 1, 3 ↦ 3 (whose maxima set holds
(3,3) and (1,2)) in which the user comparator throws while classifying
the right neighbour, and the unwind of src lines 486-490 erases through
`left_mx` — which held a merely FOUND pre-existing maxima entry (src
line 470), not a staged insertion: after the exception propagates the
pre-existing maxima entry (1, 2) has been removed although the domain
is untouched. -/
theorem claim_C3_erase_throw_removes_preexisting_maximum :
    eraseE 2 ((FunctionMaxima.run [.set 1 2, .set 2 1, .set 3 3] :
        FunctionMaxima ℕ ℕ), 16) =
      .inl (⟨[⟨1, 2⟩, ⟨2, 1⟩, ⟨3, 3⟩], [⟨3, 3⟩]⟩, 0) ∧
    (⟨1, 2⟩ : point_type ℕ ℕ) ∈
      (FunctionMaxima.run [.set 1 2, .set 2 1, .set 3 3] :
        FunctionMaxima ℕ ℕ).maxima ∧
    (⟨1, 2⟩ : point_type ℕ ℕ) ∉ ([⟨3, 3⟩] : List (point_type ℕ ℕ)) := by
  exact ⟨by decide, by decide, by decide⟩

end ExceptionModel

/-! ## The heap model for container copies

`FunctionMaxima(FunctionMaxima const&) = default` (src line 130) copies
the three `std::set`s element-wise; each copied `point_type` copies its
two `shared_ptr` members (src line 39), so the copy's points refer to
the same `A` and `V` cells as the original's.  Whether mutations of one
container can disturb the other is a question about those shared cells,
so this model makes the cells explicit: they live in stores shared by
all containers, and points hold cell indices.  The source never writes
through a shared pointer — `replace_value` (src lines 34-36) reassigns
which cell the point holds, `arg()`/`value()` (src lines 42-48) only
read — so the stores are append-only: `std::make_shared` (src lines
283/286) appends a cell, and a cell whose owners all vanish is simply
never read again (modelled by keeping it).  `set_value` may also reuse
an existing equal value cell through the `range` index (src lines
284-285); reads cannot distinguish an immutable shared cell from a
fresh equal one, so the model always allocates. -/

section HeapModel

/-- A point as stored in a set: indices of its argument and value cells
(the two `shared_ptr` members of `point_type`, src lines 21-24). -/
structure hpoint where
  ai : Nat
  vi : Nat
deriving DecidableEq, Repr

instance : Inhabited hpoint := ⟨⟨0, 0⟩⟩

/-- The shared cells. -/
structure Store (α β : Type) where
  args : List α
  vals : List β
deriving DecidableEq, Repr

variable {α β : Type} [LinearOrder α] [LinearOrder β] [Inhabited α] [Inhabited β]

/-- Reading a point through its pointers. -/
def derefPt (σ : Store α β) (p : hpoint) : point_type α β :=
  ⟨σ.args.getD p.ai default, σ.vals.getD p.vi default⟩

/-- A container: the graph and the maxima set, as lists of points
holding shared cells. -/
structure HFM where
  fun_ : List hpoint
  maxima : List hpoint
deriving DecidableEq, Repr

/-- The copy constructor (src line 130): the sets are copied
element-wise and each copied point copies its pointers, so the copy
holds exactly the same cell indices. -/
def hcopy (c : HFM) : HFM := c

/-- Everything the read operations observe: the graph and the maxima
set read through the pointers.  `size()`, `value_at`, `find` and the
`begin..end` / `mx_begin..mx_end` iterations are all functions of this
readout. -/
def hreadout (σ : Store α β) (c : HFM) : FunctionMaxima α β :=
  ⟨c.fun_.map (derefPt σ), c.maxima.map (derefPt σ)⟩

/-- Every pointer of the container refers to a live cell. -/
def HValid (σ : Store α β) (c : HFM) : Prop :=
  (∀ p ∈ c.fun_, p.ai < σ.args.length ∧ p.vi < σ.vals.length) ∧
  (∀ p ∈ c.maxima, p.ai < σ.args.length ∧ p.vi < σ.vals.length)

/-- `maxima_order` on stored points: compare through the pointers. -/
def hmaxima_ord (σ : Store α β) (p q : hpoint) : Bool :=
  maxima_order (derefPt σ p) (derefPt σ q)

/-- The maxima bookkeeping of `set_value` (src lines 304-451) on stored
points: the same staged insertions and erasures as `set_value_maxima`,
deciding on the graph read through the store. -/
def hset_value_maxima (σ : Store α β) (l' : List hpoint) (i : Nat)
    (m : List hpoint) (oldPt? : Option hpoint) : List hpoint :=
  let L := l'.map (derefPt σ)
  let pt := l'.getD i default
  let leftPt := l'.getD (i - 1) default
  let rightPt := l'.getD (i + 1) default
  let will_be_max := maximum_check L i
  let will_be_max_l := decide (i ≠ 0) && maximum_check L (i - 1)
  let will_be_max_r := decide (i + 1 < L.length) && maximum_check L (i + 1)
  let was_maximum := match oldPt? with
    | some q => setContains (hmaxima_ord σ) q m
    | none => false
  let was_maximum_l := decide (i ≠ 0) && setContains (hmaxima_ord σ) leftPt m
  let was_maximum_r :=
    decide (i + 1 < L.length) && setContains (hmaxima_ord σ) rightPt m
  let m₁ := if will_be_max then setInsert (hmaxima_ord σ) pt m else m
  let m₂ := if will_be_max_l && !was_maximum_l then
    setInsert (hmaxima_ord σ) leftPt m₁ else m₁
  let m₃ := if will_be_max_r && !was_maximum_r then
    setInsert (hmaxima_ord σ) rightPt m₂ else m₂
  let m₄ := if !will_be_max && was_maximum then
    setErase (hmaxima_ord σ) (oldPt?.getD default) m₃ else m₃
  let m₅ := if !will_be_max_l && was_maximum_l then
    setErase (hmaxima_ord σ) leftPt m₄ else m₄
  let m₆ := if !will_be_max_r && was_maximum_r then
    setErase (hmaxima_ord σ) rightPt m₅ else m₅
  if will_be_max && was_maximum then
    setErase (hmaxima_ord σ) (oldPt?.getD default) m₆ else m₆

/-- `set_value` (src lines 263-452) on the heap model: reuse the
argument cell of an existing point (src lines 281-282), allocate a
fresh value cell (src line 286), rebind the value slot in place
(`replace_value`, src line 295 — a pointer reassignment, not a store
write) or insert a fresh point (src line 297), then repair the maxima
set. -/
def hset_value (σ : Store α β) (c : HFM) (a : α) (v : β) :
    Store α β × HFM :=
  let L := c.fun_.map (derefPt σ)
  let i₀ := L.findIdx (arg_equiv a)
  if i₀ < L.length then
    let oldHp := c.fun_.getD i₀ default
    let old := derefPt σ oldHp
    if !decide (old.value < v) && !decide (v < old.value) then (σ, c)
    else
      let vi' := σ.vals.length
      let σ' : Store α β := ⟨σ.args, σ.vals ++ [v]⟩
      let l' := c.fun_.set i₀ ⟨oldHp.ai, vi'⟩
      (σ', ⟨l', hset_value_maxima σ' l' i₀ c.maxima (some oldHp)⟩)
  else
    let x : hpoint := ⟨σ.args.length, σ.vals.length⟩
    let σ' : Store α β := ⟨σ.args ++ [a], σ.vals ++ [v]⟩
    let k := (c.fun_.takeWhile (fun p => decide ((derefPt σ p).arg < a))).length
    let l' := c.fun_.takeWhile (fun p => decide ((derefPt σ p).arg < a)) ++
      x :: c.fun_.dropWhile (fun p => decide ((derefPt σ p).arg < a))
    (σ', ⟨l', hset_value_maxima σ' l' k c.maxima none⟩)

/-- `erase` (src lines 454-503) on the heap model: no store writes at
all — only the container's own point lists change (cells may lose their
last owner, which no read observes). -/
def herase (σ : Store α β) (c : HFM) (a : α) : Store α β × HFM :=
  let L := c.fun_.map (derefPt σ)
  let i := L.findIdx (arg_equiv a)
  if i < L.length then
    let tgt := c.fun_.getD i default
    let leftPt := c.fun_.getD (i - 1) default
    let rightPt := c.fun_.getD (i + 1) default
    let m := c.maxima
    let m₁ := if decide (i ≠ 0) && is_maximum L (i - 1) i then
      setInsert (hmaxima_ord σ) leftPt m else m
    let m₂ := if decide (i + 1 < L.length) && is_maximum L (i + 1) i then
      setInsert (hmaxima_ord σ) rightPt m₁ else m₁
    let m₃ := if setContains (hmaxima_ord σ) tgt m then
      setErase (hmaxima_ord σ) tgt m₂ else m₂
    let m₄ := if decide (i ≠ 0) && !is_maximum L (i - 1) i &&
        setContains (hmaxima_ord σ) leftPt m then
      setErase (hmaxima_ord σ) leftPt m₃ else m₃
    let m₅ := if decide (i + 1 < L.length) && !is_maximum L (i + 1) i &&
        setContains (hmaxima_ord σ) rightPt m then
      setErase (hmaxima_ord σ) rightPt m₄ else m₄
    (σ, ⟨erasePtAt c.fun_ i, m₅⟩)
  else (σ, c)

/-- One mutating call on a container sharing the store. -/
def hstep (sc : Store α β × HFM) : FunctionMaxima.Op α β → Store α β × HFM
  | .set a v => hset_value sc.1 sc.2 a v
  | .ers a => herase sc.1 sc.2 a

/-- A sequence of mutating calls on a container sharing the store. -/
def hrun (sc : Store α β × HFM) (ops : List (FunctionMaxima.Op α β)) :
    Store α β × HFM :=
  ops.foldl hstep sc

/-- Mutations only append cells to the stores. -/
def SExt (σ σ' : Store α β) : Prop :=
  ∃ ea ev, σ'.args = σ.args ++ ea ∧ σ'.vals = σ.vals ++ ev

theorem sext_refl (σ : Store α β) : SExt σ σ :=
  ⟨[], [], by simp, by simp⟩

theorem sext_trans {σ σ' σ'' : Store α β} (h₁ : SExt σ σ') (h₂ : SExt σ' σ'') :
    SExt σ σ'' := by
  obtain ⟨ea, ev, ha, hv⟩ := h₁
  obtain ⟨ea', ev', ha', hv'⟩ := h₂
  exact ⟨ea ++ ea', ev ++ ev', by rw [ha', ha, List.append_assoc],
    by rw [hv', hv, List.append_assoc]⟩

theorem hset_value_sext (σ : Store α β) (c : HFM) (a : α) (v : β) :
    SExt σ (hset_value σ c a v).1 := by
  simp only [hset_value]
  split
  · split
    · exact sext_refl σ
    · exact ⟨[], [v], by simp, rfl⟩
  · exact ⟨[a], [v], rfl, rfl⟩

theorem herase_sext (σ : Store α β) (c : HFM) (a : α) :
    SExt σ (herase σ c a).1 := by
  simp only [herase]
  split
  · exact sext_refl σ
  · exact sext_refl σ

theorem hrun_sext (ops : List (FunctionMaxima.Op α β))
    (sc : Store α β × HFM) : SExt sc.1 (hrun sc ops).1 := by
  induction ops generalizing sc with
  | nil => exact sext_refl _
  | cons o os ih =>
    refine sext_trans ?_ (ih (hstep sc o))
    cases o with
    | set a v => exact hset_value_sext sc.1 sc.2 a v
    | ers a => exact herase_sext sc.1 sc.2 a

theorem getD_append_stable {γ : Type} [Inhabited γ] (l ext : List γ)
    (i : Nat) (h : i < l.length) :
    (l ++ ext).getD i default = l.getD i default := by
  rw [List.getD_eq_getElem?_getD, List.getD_eq_getElem?_getD,
    List.getElem?_append, if_pos h]

/-- Live cells read the same through any extension of the store. -/
theorem derefPt_sext {σ σ' : Store α β} (hext : SExt σ σ') {p : hpoint}
    (h : p.ai < σ.args.length ∧ p.vi < σ.vals.length) :
    derefPt σ' p = derefPt σ p := by
  obtain ⟨ea, ev, ha, hv⟩ := hext
  unfold derefPt
  rw [ha, hv, getD_append_stable _ _ _ h.1, getD_append_stable _ _ _ h.2]

/-- A valid container's whole readout survives any store extension. -/
theorem hreadout_sext {σ σ' : Store α β} {c : HFM} (hext : SExt σ σ')
    (hv : HValid σ c) : hreadout σ' c = hreadout σ c := by
  unfold hreadout
  have h₁ : c.fun_.map (derefPt σ') = c.fun_.map (derefPt σ) :=
    List.map_congr_left (fun p hp => derefPt_sext hext (hv.1 p hp))
  have h₂ : c.maxima.map (derefPt σ') = c.maxima.map (derefPt σ) :=
    List.map_congr_left (fun p hp => derefPt_sext hext (hv.2 p hp))
  rw [h₁, h₂]

/-- **C9.** A copy-constructed container (src line 130) shares its
points' cells with the original, yet responds identically to every read
operation: the two readouts — graph and maxima set, read through the
pointers — coincide.  And after the copy, any sequence of `set_value` /
`erase` calls applied to one container only appends cells to the shared
stores and rearranges that container's own point lists, so the other
container's observable state is unchanged.  (`hcopy c` and `c` hold
equal pointer structure, so the one stated direction covers mutations
of either container.) -/
theorem claim_C9_copy_independent (σ : Store α β) (c : HFM)
    (hv : HValid σ c) (ops : List (FunctionMaxima.Op α β)) :
    hreadout σ (hcopy c) = hreadout σ c ∧
    hreadout (hrun (σ, hcopy c) ops).1 c = hreadout σ c :=
  ⟨rfl, hreadout_sext (hrun_sext ops (σ, hcopy c)) hv⟩

/-- The copy-independence theorem at a concrete container
{1 ↦ 5, 2 ↦ 3} and a mutation sequence that overwrites, inserts and
erases on the copy. -/
theorem claim_C9_copy_independent_witness :
    HValid (⟨[1, 2], [5, 3]⟩ : Store ℕ ℕ) ⟨[⟨0, 0⟩, ⟨1, 1⟩], [⟨0, 0⟩]⟩ ∧
    (hreadout ⟨[1, 2], [5, 3]⟩ (hcopy ⟨[⟨0, 0⟩, ⟨1, 1⟩], [⟨0, 0⟩]⟩) =
      hreadout (⟨[1, 2], [5, 3]⟩ : Store ℕ ℕ) ⟨[⟨0, 0⟩, ⟨1, 1⟩], [⟨0, 0⟩]⟩ ∧
    hreadout (hrun (⟨[1, 2], [5, 3]⟩, hcopy ⟨[⟨0, 0⟩, ⟨1, 1⟩], [⟨0, 0⟩]⟩)
        [.set 2 9, .set 3 1, .ers 1]).1 ⟨[⟨0, 0⟩, ⟨1, 1⟩], [⟨0, 0⟩]⟩ =
      hreadout (⟨[1, 2], [5, 3]⟩ : Store ℕ ℕ) ⟨[⟨0, 0⟩, ⟨1, 1⟩], [⟨0, 0⟩]⟩) :=
  ⟨by unfold HValid; decide,
    claim_C9_copy_independent ⟨[1, 2], [5, 3]⟩ ⟨[⟨0, 0⟩, ⟨1, 1⟩], [⟨0, 0⟩]⟩
      (by unfold HValid; decide) [.set 2 9, .set 3 1, .ers 1]⟩

end HeapModel

end Claims

end FunctionMaximaVerif
